import Mathlib

/-
Verification of testmaster/compare_metrics.py (m-lab/ndt-e2e-testmaster).

The script is Python 2.  We shallowly embed its data model and the four core
functions: parse_filename, parse_csv, average_metrics and compare_metrics.

Modelling choices, documented once here:
  * Python floats are modelled as exact rationals (Rat).  All numbers flowing
    through the script are produced by float(...) and round(..., 2), and the
    claims under check concern formula structure and sentinel values, not
    binary floating-point representation error.
  * The auto-vivifying collections.defaultdict nest is modelled by the
    recursive type PyVal, with dictionaries as insertion-ordered association
    lists.  A defaultdict lookup of a missing key inserts an empty dict and
    returns it; our getVivify and vivifyGet reproduce that, returning the
    mutated structure alongside the value (explicit state passing).
  * Functions that can terminate the process via sys.exit or raise an
    uncaught exception return a RunResult / Except value making the outcome
    explicit.
  * average_metrics executes avgs = results and then updates in place, so
    the structure it returns is also the post-call state of the caller's
    argument; compare_metrics can mutate both of its arguments through
    defaultdict auto-vivification, so its embedding returns the final states
    of both arguments alongside the row list.
-/

namespace Testmaster

/-- A Python value as used by compare_metrics.py: a string, a number
(Python float, modelled as a rational), or a (default)dict keyed by strings,
modelled as an insertion-ordered association list. -/
inductive PyVal where
  | str (s : String)
  | num (q : Rat)
  | dict (entries : List (String × PyVal))

/-- Exceptions the embedded code can raise. -/
inductive PyExc where
  | typeError
  | valueError
  | zeroDivision
  | attrError
  | keyError
deriving DecidableEq

/-- Outcome of running a piece of the script: a normal value, a process
exit via sys.exit(code), or an uncaught exception. -/
inductive RunResult (α : Type) where
  | ok (a : α)
  | exit (code : Nat)
  | exc (e : PyExc)

/-- First-occurrence lookup in an association list (Python dict lookup;
a Python dict cannot actually hold duplicate keys). -/
def lookupKey : List (String × PyVal) → String → Option PyVal
  | [], _ => none
  | (k2, v) :: t, k => if k2 = k then some v else lookupKey t k

/-- Update the value of an existing key in place, keeping its position
(Python dict setitem on a present key). -/
def setKey : List (String × PyVal) → String → PyVal → List (String × PyVal)
  | [], _, _ => []
  | (k2, w) :: t, k, v => if k2 = k then (k2, v) :: t else (k2, w) :: setKey t k v

/-- Python dict setitem: update in place if the key is present, otherwise
append the new entry at the end. -/
def setOrAppend (es : List (String × PyVal)) (k : String) (v : PyVal) :
    List (String × PyVal) :=
  match lookupKey es k with
  | some _ => setKey es k v
  | none => es ++ [(k, v)]

/-- One defaultdict getitem: if the key is present return its value and the
dict unchanged; otherwise insert an empty defaultdict under the key
(auto-vivification) and return it. -/
def getVivify (es : List (String × PyVal)) (k : String) :
    PyVal × List (String × PyVal) :=
  match lookupKey es k with
  | some v => (v, es)
  | none => (.dict [], es ++ [(k, .dict [])])

/-- A chain of defaultdict getitems along a key path, as in
old_avgs[o]['browsers'][b]['clients'][c][metric].  Returns the value found
(or vivified) at the end of the path together with the updated structure.
Indexing a non-dict value with a string key raises TypeError. -/
def vivifyGet : PyVal → List String → Except PyExc (PyVal × PyVal)
  | v, [] => pure (v, v)
  | .dict es, k :: ks =>
      match lookupKey es k with
      | some w => do
          let (r, w2) ← vivifyGet w ks
          pure (r, .dict (setKey es k w2))
      | none => do
          let (r, w2) ← vivifyGet (.dict []) ks
          pure (r, .dict (es ++ [(k, w2)]))
  | .str _, _ :: _ => throw .typeError
  | .num _, _ :: _ => throw .typeError

/-- Pure read-only projection of vivifyGet: what value a defaultdict getitem
chain yields, without recording the insertions it makes.  A missing key
yields the freshly vivified empty dict. -/
def chainGet : PyVal → List String → Except PyExc PyVal
  | v, [] => pure v
  | .dict es, k :: ks =>
      match lookupKey es k with
      | some w => chainGet w ks
      | none => pure (.dict [])
  | .str _, _ :: _ => throw .typeError
  | .num _, _ :: _ => throw .typeError

/-- Plain path lookup with no vivification: some value only when every key
on the path is present and every intermediate value is a dict. -/
def lookupPath : PyVal → List String → Option PyVal
  | v, [] => some v
  | .dict es, k :: ks =>
      match lookupKey es k with
      | some w => lookupPath w ks
      | none => none
  | .str _, _ :: _ => none
  | .num _, _ :: _ => none

/-- Whether a full key path exists in the structure (through dicts only). -/
def hasPath (v : PyVal) (p : List String) : Bool :=
  (lookupPath v p).isSome

/-- Python 2 round(q, 2): round to 2 decimal places, halves away from zero. -/
def round2 (q : Rat) : Rat :=
  let n : Int := Int.floor (|q| * 100 + 1 / 2)
  (if q < 0 then -(n : Rat) else (n : Rat)) / 100

/-- Python truthiness of a value, as used by the statement if data: an empty
string, the number 0 and an empty dict are falsy, everything else truthy. -/
def pyTruthy : PyVal → Bool
  | .str s => !s.isEmpty
  | .num q => q != 0
  | .dict es => !es.isEmpty

/-- Numeric value of the decimal-digit list d₀…dₙ. -/
def digitsVal (l : List Char) : Nat :=
  l.foldl (fun a c => a * 10 + (c.toNat - 48)) 0

/-- Models the Python builtin float(s) on finite decimal literals: optional
surrounding whitespace, optional sign, digits with an optional decimal point
and an optional exponent.  Returns none where float(s) raises ValueError.
(The special spellings inf/infinity/nan are outside the model; no value in
this development produces them.) -/
def pyFloat? (s : String) : Option Rat :=
  let cs := ((s.toList.dropWhile Char.isWhitespace).reverse.dropWhile
      Char.isWhitespace).reverse
  let (sign, cs1) : Rat × List Char :=
    match cs with
    | '+' :: t => (1, t)
    | '-' :: t => (-1, t)
    | t => (1, t)
  let intPart := cs1.takeWhile Char.isDigit
  let cs2 := cs1.drop intPart.length
  let (fracPart, cs3) : List Char × List Char :=
    match cs2 with
    | '.' :: t => (t.takeWhile Char.isDigit, t.drop (t.takeWhile Char.isDigit).length)
    | t => ([], t)
  if intPart.isEmpty && fracPart.isEmpty then none
  else
    let mantissa : Rat :=
      (digitsVal intPart : Rat) + (digitsVal fracPart : Rat) / ((10 : Rat) ^ fracPart.length)
    match cs3 with
    | [] => some (sign * mantissa)
    | e :: t =>
        if e = 'e' ∨ e = 'E' then
          let (esign, t1) : Int × List Char :=
            match t with
            | '+' :: u => (1, u)
            | '-' :: u => (-1, u)
            | u => (1, u)
          let eds := t1.takeWhile Char.isDigit
          if eds.isEmpty ∨ t1.length ≠ eds.length then none
          else some (sign * mantissa * (10 : Rat) ^ ((esign * (digitsVal eds : Int))))
        else none

/-- Helper of splitDash: split the remaining characters at each dash, with
the characters of the current segment accumulated in reverse. -/
def splitDashAux : List Char → List Char → List String
  | [], acc => [String.mk acc.reverse]
  | c :: rest, acc =>
      if c = '-' then String.mk acc.reverse :: splitDashAux rest []
      else splitDashAux rest (c :: acc)

/-- Python str.split of a string on the single character dash, the only
separator compare_metrics.py ever splits on: the empty string yields one
empty segment, and adjacent dashes yield empty segments. -/
def splitDash (s : String) : List String :=
  splitDashAux s.toList []

/-- Python str.join with a dash separator, as used to rebuild the timestamp
from segments 3 to 5. -/
def joinDash : List String → String
  | [] => ""
  | [x] => x
  | x :: xs => x ++ "-" ++ joinDash xs

/-- Result of the regex match of a segment against the pattern
of compare_metrics.py line 68, documented at regexNameVersion. -/
structure NameVersion where
  name : String
  version : String
deriving DecidableEq, Repr

/-- Models re.match of the anchored pattern from line 68 of the source,
caret ([a-z]+)(\d.*)$ with the caret spelled first: group 1 is the maximal
leading run of ASCII lowercase letters (nonempty), which must be followed by
an ASCII digit; group 2 is the digit and the remaining characters, which
cannot include a newline except for a single trailing newline absorbed by
the dollar anchor.  Backtracking cannot produce any other split: a shorter
letter run is followed by a letter, never by a digit. -/
def regexNameVersion (s : String) : Option NameVersion :=
  let name := s.toList.takeWhile Char.isLower
  let rest := s.toList.drop name.length
  if name.isEmpty then none
  else
    match rest with
    | [] => none
    | d :: tail =>
        if d.isDigit then
          if tail.all (· ≠ '\n') then
            some ⟨String.mk name, String.mk (d :: tail)⟩
          else if tail.dropLast.all (· ≠ '\n') && tail.getLast? == some '\n' then
            some ⟨String.mk name, String.mk (d :: tail.dropLast)⟩
          else none
        else none

/-- Metadata parse_filename extracts from a results filename.  The Python
dict simply lacks the browser keys when the browser segment does not match
the pattern, so those two fields are options here. -/
structure FilenameMetadata where
  os : String
  os_version : String
  browser : Option String
  browser_version : Option String
  client : String
  timestamp : String
deriving DecidableEq, Repr

/-- Embedding of parse_filename (lines 41 to 103 of the source): split the
filename on dashes; exactly 7 parts are required, else sys.exit(1); the OS
segment must match the name/version pattern, else sys.exit(1); a browser
segment that fails the pattern is only logged, and the metadata is returned
without browser fields; the client segment is taken verbatim and segments
3 to 5 are rejoined with a dash as the timestamp.  Segment 6 is unused. -/
def parse_filename (filename : String) : RunResult FilenameMetadata :=
  let parts := splitDash filename
  if parts.length ≠ 7 then .exit 1
  else
    match regexNameVersion (parts.getD 0 "") with
    | none => .exit 1
    | some osm =>
        let bm := regexNameVersion (parts.getD 1 "")
        .ok { os := osm.name
              os_version := osm.version
              browser := bm.map NameVersion.name
              browser_version := bm.map NameVersion.version
              client := parts.getD 2 ""
              timestamp := joinDash ((parts.drop 3).take 3) }

/-- One record of an input CSV file, under the field mapping hard-coded in
parse_csv (line 124 of the source).  DictReader maps the nine columns to
these names positionally; the first column is the filename field. -/
structure CsvRow where
  filename : String
  total_duration : String
  c2s_speed : String
  c2s_duration : String
  s2c_speed : String
  s2c_duration : String
  latency : String
  has_error : String
  error_list : String
deriving DecidableEq, Repr

/-- The seven metric fields parse_csv ingests: every field of the fields
list except filename and error_list, paired with the row's value. -/
def metricFieldValues (r : CsvRow) : List (String × String) :=
  [("total_duration", r.total_duration), ("c2s_speed", r.c2s_speed),
   ("c2s_duration", r.c2s_duration), ("s2c_speed", r.s2c_speed),
   ("s2c_duration", r.s2c_duration), ("latency", r.latency),
   ("has_error", r.has_error)]

/-- Assignment through a chain of defaultdict getitems ending in a setitem,
as in e2e_metrics[os]['browsers'][b]['clients'][c][field][ts] = value.
Intermediate missing keys are vivified as empty dicts; assigning through a
non-dict value raises TypeError (modelled as none). -/
def dset? : PyVal → List String → PyVal → Option PyVal
  | w, [], _ => some w
  | .dict es, [k], v => some (.dict (setOrAppend es k v))
  | .dict es, k :: ks, v =>
      match lookupKey es k with
      | some w => (dset? w ks v).map (fun w2 => .dict (setKey es k w2))
      | none => (dset? (.dict []) ks v).map (fun w2 => .dict (es ++ [(k, w2)]))
  | .str _, _ :: _, _ => none
  | .num _, _ :: _, _ => none

/-- The three assignments in the body of the field loop of parse_csv
(lines 142 to 146), for one metric field of one row.  Reading the missing
browser key of the metadata dict raises KeyError; in the embedding the
browser fields are none exactly when the Python dict lacks the keys. -/
def ingestField (acc : PyVal) (m : FilenameMetadata) (field value : String) :
    Except PyExc PyVal := do
  let a1 ← match dset? acc [m.os, "version"] (.str m.os_version) with
    | some a => pure a
    | none => throw .typeError
  match m.browser, m.browser_version with
  | some b, some bv => do
      let a2 ← match dset? a1 [m.os, "browsers", b, "version"] (.str bv) with
        | some a => pure a
        | none => throw .typeError
      match dset? a2 [m.os, "browsers", b, "clients", m.client, field, m.timestamp]
          (.str value) with
      | some a => pure a
      | none => throw .typeError
  | _, _ => throw .keyError

/-- The whole field loop of parse_csv for one data row. -/
def ingest_row (acc : PyVal) (m : FilenameMetadata) (r : CsvRow) :
    Except PyExc PyVal :=
  (metricFieldValues r).foldlM (fun a p => ingestField a m p.1 p.2) acc

/-- The row loop of parse_csv, carrying the accumulated nested structure:
a row whose filename field is exactly the string Filename is skipped; every
other row has its filename field passed to parse_filename (whose sys.exit
aborts the whole run) and is then ingested. -/
def parse_csv_from (acc : PyVal) : List CsvRow → RunResult PyVal
  | [] => .ok acc
  | r :: rs =>
      if r.filename = "Filename" then parse_csv_from acc rs
      else
        match parse_filename r.filename with
        | .ok m =>
            match ingest_row acc m r with
            | .ok a2 => parse_csv_from a2 rs
            | .error e => .exc e
        | .exit c => .exit c
        | .exc e => .exc e

/-- Embedding of parse_csv (lines 106 to 148): fold the rows into a fresh
auto-vivifying nested dict. -/
def parse_csv (rows : List CsvRow) : RunResult PyVal :=
  parse_csv_from (.dict []) rows

/-- Apply an effectful transformation to every value of an association list,
keeping keys and order: the shape of each for loop of average_metrics, which
replaces values but never inserts or removes keys of the dict it walks. -/
def mapVals (f : PyVal → Except PyExc PyVal) :
    List (String × PyVal) → Except PyExc (List (String × PyVal))
  | [] => pure []
  | (k, v) :: rest => do
      let v2 ← f v
      let rest2 ← mapVals f rest
      pure ((k, v2) :: rest2)

/-- The sum loop of average_metrics (lines 169 to 173): for each sample, if
the value is truthy it is converted with float(...) and added.  float of a
dict raises TypeError; float of a non-numeric string raises ValueError. -/
def sumSamples : List (String × PyVal) → Except PyExc Rat
  | [] => pure 0
  | (_, data) :: rest =>
      if pyTruthy data then
        match data with
        | .str s =>
            match pyFloat? s with
            | some q => do pure (q + (← sumSamples rest))
            | none => throw .valueError
        | .num q => do pure (q + (← sumSamples rest))
        | .dict _ => throw .typeError
      else sumSamples rest

/-- The body of the innermost loop of average_metrics for one metric: count
is the total number of samples (len of the series dict), the sum skips falsy
samples, and the rounded mean divides by the total count.  A series with no
samples raises ZeroDivisionError; a series that is not a dict raises (len or
iteritems on it fails). -/
def avgSeries : PyVal → Except PyExc Rat
  | .dict entries => do
      let s ← sumSamples entries
      if entries.length = 0 then throw .zeroDivision
      else pure (round2 (s / (entries.length : Rat)))
  | .str _ => throw .attrError
  | .num _ => throw .typeError

/-- The metric loop of average_metrics over one client dict: every metric
series is replaced in place by its rounded mean.  Iterating a non-dict
client value: a nonempty string raises TypeError at the first subscript, an
empty string makes the loop body unreachable, a number is not iterable. -/
def avgClientVal : PyVal → Except PyExc PyVal
  | .dict entries => do
      let e2 ← mapVals (fun sv => do pure (.num (← avgSeries sv))) entries
      pure (.dict e2)
  | .str s => if s.isEmpty then pure (.str s) else throw .typeError
  | .num _ => throw .typeError

/-- The client loop of average_metrics over one browser dict: looks up (and
if missing vivifies) the clients key, then rewrites every client value. -/
def avgBrowserVal : PyVal → Except PyExc PyVal
  | .dict entries =>
      match getVivify entries "clients" with
      | (.dict cEntries, entries2) => do
          let c2 ← mapVals avgClientVal cEntries
          pure (.dict (setOrAppend entries2 "clients" (.dict c2)))
      | (.str s, entries2) =>
          if s.isEmpty then pure (.dict entries2) else throw .typeError
      | (.num _, _) => throw .typeError
  | .str _ => throw .typeError
  | .num _ => throw .typeError

/-- The browser loop of average_metrics over one OS dict: looks up (and if
missing vivifies) the browsers key, then rewrites every browser value. -/
def avgOsVal : PyVal → Except PyExc PyVal
  | .dict entries =>
      match getVivify entries "browsers" with
      | (.dict bEntries, entries2) => do
          let b2 ← mapVals avgBrowserVal bEntries
          pure (.dict (setOrAppend entries2 "browsers" (.dict b2)))
      | (.str s, entries2) =>
          if s.isEmpty then pure (.dict entries2) else throw .typeError
      | (.num _, _) => throw .typeError
  | .str _ => throw .typeError
  | .num _ => throw .typeError

/-- Embedding of average_metrics (lines 151 to 177).  The Python code binds
avgs = results, an alias, and assigns every aggregated mean in place, so the
structure returned here is also the post-call state of the caller's
argument: the two are one and the same object in the source. -/
def average_metrics (results : PyVal) : Except PyExc PyVal :=
  match results with
  | .dict entries => do
      let e2 ← mapVals avgOsVal entries
      pure (.dict e2)
  | .str s => if s.isEmpty then pure (.str s) else throw .typeError
  | .num _ => throw .typeError

/-- One output row of compare_metrics.  The Python dict key %change is
spelled change here. -/
structure Row where
  os : String
  browser : String
  client : String
  metric : String
  old_avg : PyVal
  new_avg : PyVal
  change : PyVal

/-- The delta computation of compare_metrics (lines 212 to 216): the guard
compares with Python 2 semantics, where a string or dict is never equal to
the number 0, and the sentinel comparison is string equality; when the guard
passes, the arithmetic requires both averages to be numbers (a float minus a
string or dict raises TypeError). -/
def pyDelta (old_avg new_avg : PyVal) : Except PyExc PyVal :=
  let ne0 : PyVal → Bool := fun v => match v with | .num q => q != 0 | _ => true
  let neNone : PyVal → Bool := fun v => match v with | .str s => s ≠ "none" | _ => true
  if ne0 new_avg && ne0 old_avg && neNone old_avg then
    match old_avg, new_avg with
    | .num o, .num n => pure (.num (round2 ((n - o) / n) * 100))
    | _, _ => throw .typeError
  else pure (.str "error")

/-- One iteration of the innermost loop of compare_metrics: look up the old
average through the auto-vivifying chain (mutating old), turn a defaultdict
result into the sentinel none, compute the delta, and build the row. -/
def compareStep (oldS : PyVal) (o b c metric : String) (nv : PyVal) :
    Except PyExc (Row × PyVal) := do
  let (ov, old2) ← vivifyGet oldS [o, "browsers", b, "clients", c, metric]
  let old_avg := match ov with | .dict _ => PyVal.str "none" | x => x
  let delta ← pyDelta old_avg nv
  pure ({ os := o, browser := b, client := c, metric := metric,
          old_avg := old_avg, new_avg := nv, change := delta }, old2)

/-- The metric loop of compare_metrics over one client dict of new, with the
old structure threaded through the auto-vivifying lookups. -/
def compareMetricsList (oldS : PyVal) (o b c : String) :
    List (String × PyVal) → Except PyExc (List Row × PyVal)
  | [] => pure ([], oldS)
  | (metric, nv) :: rest => do
      let (row, old2) ← compareStep oldS o b c metric nv
      let (rows, old3) ← compareMetricsList old2 o b c rest
      pure (row :: rows, old3)

/-- The metric loop entered from one client value of new: a dict iterates
its metrics; a nonempty string raises TypeError at the first subscript; an
empty string or a vivified empty dict yields no rows. -/
def compareClientVal (oldS : PyVal) (o b c : String) :
    PyVal → Except PyExc (List Row × PyVal)
  | .dict entries => compareMetricsList oldS o b c entries
  | .str s => if s.isEmpty then pure ([], oldS) else throw .typeError
  | .num _ => throw .typeError

/-- The client loop over a clients dict of new. -/
def compareClientsList (oldS : PyVal) (o b : String) :
    List (String × PyVal) → Except PyExc (List Row × PyVal)
  | [] => pure ([], oldS)
  | (c, cv) :: rest => do
      let (rows1, old2) ← compareClientVal oldS o b c cv
      let (rows2, old3) ← compareClientsList old2 o b rest
      pure (rows1 ++ rows2, old3)

/-- One browser value of new: its clients key is looked up (vivified when
missing, which mutates new) and the client loop is run. -/
def compareBrowserVal (oldS : PyVal) (o b : String) :
    PyVal → Except PyExc (List Row × PyVal × PyVal)
  | .dict entries =>
      match getVivify entries "clients" with
      | (.dict cEntries, entries2) => do
          let (rows, old2) ← compareClientsList oldS o b cEntries
          pure (rows, old2, .dict entries2)
      | (.str s, entries2) =>
          if s.isEmpty then pure ([], oldS, .dict entries2)
          else throw .typeError
      | (.num _, _) => throw .typeError
  | .str _ => throw .typeError
  | .num _ => throw .typeError

/-- The browser loop over a browsers dict of new, threading old and
rebuilding the browser values of new (which can gain a vivified empty
clients dict). -/
def compareBrowsersList (oldS : PyVal) (o : String) :
    List (String × PyVal) → Except PyExc (List Row × PyVal × List (String × PyVal))
  | [] => pure ([], oldS, [])
  | (b, bv) :: rest => do
      let (rows1, old2, bv2) ← compareBrowserVal oldS o b bv
      let (rows2, old3, rest2) ← compareBrowsersList old2 o rest
      pure (rows1 ++ rows2, old3, (b, bv2) :: rest2)

/-- One OS value of new: its browsers key is looked up (vivified when
missing) and the browser loop is run. -/
def compareOsVal (oldS : PyVal) (o : String) :
    PyVal → Except PyExc (List Row × PyVal × PyVal)
  | .dict entries =>
      match getVivify entries "browsers" with
      | (.dict bEntries, entries2) => do
          let (rows, old2, b2) ← compareBrowsersList oldS o bEntries
          pure (rows, old2, .dict (setOrAppend entries2 "browsers" (.dict b2)))
      | (.str s, entries2) =>
          if s.isEmpty then pure ([], oldS, .dict entries2)
          else throw .typeError
      | (.num _, _) => throw .typeError
  | .str _ => throw .typeError
  | .num _ => throw .typeError

/-- The OS loop of compare_metrics over the top level of new. -/
def compareOsList (oldS : PyVal) :
    List (String × PyVal) → Except PyExc (List Row × PyVal × List (String × PyVal))
  | [] => pure ([], oldS, [])
  | (o, ov) :: rest => do
      let (rows1, old2, ov2) ← compareOsVal oldS o ov
      let (rows2, old3, rest2) ← compareOsList old2 rest
      pure (rows1 ++ rows2, old3, (o, ov2) :: rest2)

/-- Embedding of compare_metrics (lines 180 to 232).  The iteration is
driven entirely by new_avgs; old_avgs is only read through auto-vivifying
defaultdict lookups, which can insert empty dicts into it, so the final
states of both arguments are returned alongside the row list. -/
def compare_metrics (old_avgs new_avgs : PyVal) :
    Except PyExc (List Row × PyVal × PyVal) :=
  match new_avgs with
  | .dict entries => do
      let (rows, old2, e2) ← compareOsList old_avgs entries
      pure (rows, old2, .dict e2)
  | .str s => if s.isEmpty then pure ([], old_avgs, .str s) else throw .typeError
  | .num _ => throw .typeError

/-- The (os, browser, client, metric) identity of a comparison row. -/
def keyOf (r : Row) : String × String × String × String :=
  (r.os, r.browser, r.client, r.metric)

/-- The defaultdict key path a comparison row addresses in an aggregate. -/
def pathOf (r : Row) : List String :=
  [r.os, "browsers", r.browser, "clients", r.client, r.metric]

/-- The percent-change contract of one emitted comparison row: either both
averages are nonzero numbers and the change is round((new - old) / new, 2)
times 100, or the change is the sentinel error and one of the three guard
conditions failed (new average zero, old average zero, or old average the
sentinel none). -/
def RowDelta (r : Row) : Prop :=
  (∃ n o, r.new_avg = .num n ∧ r.old_avg = .num o ∧ n ≠ 0 ∧ o ≠ 0 ∧
      r.change = .num (round2 ((n - o) / n) * 100)) ∨
  (r.change = .str "error" ∧
      (r.new_avg = .num 0 ∨ r.old_avg = .num 0 ∨ r.old_avg = .str "none"))

/-- The read-only old-average a comparison row reports for a key path: the
value the defaultdict getitem chain yields, with any dict (including a
freshly vivified one, the absence signal of the source) replaced by the
sentinel none. -/
def oldAvgOf (v : PyVal) (p : List String) : Except PyExc PyVal :=
  (chainGet v p).map (fun r => match r with | .dict _ => .str "none" | x => x)

/-- The (software, metric) pairs a client value of the new aggregate
contributes to the comparison. -/
def clientKeys (o b c : String) : PyVal → List (String × String × String × String)
  | .dict es => es.map (fun p => (o, b, c, p.1))
  | _ => []

/-- The (software, metric) pairs a browser value of the new aggregate
contributes: the metrics of each client under its clients key. -/
def browserKeys (o b : String) : PyVal → List (String × String × String × String)
  | .dict es =>
      match lookupKey es "clients" with
      | some (.dict ces) => ces.flatMap (fun p => clientKeys o b p.1 p.2)
      | _ => []
  | _ => []

/-- The (software, metric) pairs an OS value of the new aggregate
contributes: the pairs of each browser under its browsers key. -/
def osKeys (o : String) : PyVal → List (String × String × String × String)
  | .dict es =>
      match lookupKey es "browsers" with
      | some (.dict bes) => bes.flatMap (fun p => browserKeys o p.1 p.2)
      | _ => []
  | _ => []

/-- All (software, metric) pairs present in an aggregate: the pairs the
comparison iterates, with the new aggregate driving the join. -/
def aggKeys : PyVal → List (String × String × String × String)
  | .dict es => es.flatMap (fun p => osKeys p.1 p.2)
  | _ => []

/-- Well-formed client dict of an aggregate: a dict with no duplicate
metric keys. -/
def wfClientDict : PyVal → Bool
  | .dict es => decide (es.map Prod.fst).Nodup
  | _ => false

/-- Well-formed browser value of an aggregate: a dict without duplicate
keys whose clients key holds a dict of well-formed client dicts. -/
def wfBrowserVal : PyVal → Bool
  | .dict es =>
      decide (es.map Prod.fst).Nodup &&
        (match lookupKey es "clients" with
         | some (.dict ces) =>
             decide (ces.map Prod.fst).Nodup && ces.all (fun p => wfClientDict p.2)
         | _ => false)
  | _ => false

/-- Well-formed OS value of an aggregate: a dict without duplicate keys
whose browsers key holds a dict of well-formed browser values. -/
def wfOsVal : PyVal → Bool
  | .dict es =>
      decide (es.map Prod.fst).Nodup &&
        (match lookupKey es "browsers" with
         | some (.dict bes) =>
             decide (bes.map Prod.fst).Nodup && bes.all (fun p => wfBrowserVal p.2)
         | _ => false)
  | _ => false

/-- Well-formed aggregate: a dict without duplicate OS keys whose values
are well-formed OS values, the shape average_metrics produces from any
nonempty parse_csv result. -/
def wfAgg : PyVal → Bool
  | .dict es => decide (es.map Prod.fst).Nodup && es.all (fun p => wfOsVal p.2)
  | _ => false

/-- The sum of the valid (non-empty) samples of a metric series, each
converted with float(...): the numerator of the aggregated mean. -/
def validSum (series : List (String × PyVal)) : Rat :=
  (series.filterMap (fun p =>
      match p.2 with
      | .str s => if s = "" then none else pyFloat? s
      | _ => none)).sum

/-- Invariant carried through every loop level of compare_metrics: the rows
produced so far identify exactly the given (software, metric) keys in
order; the threaded old structure answers every chain exactly as it did on
entry (vivification inserts only empty absence markers); and every row's
old average and percent change are determined by the old structure at the
row's key path as the source computes them. -/
def RowsSpec (oldS : PyVal) (keys : List (String × String × String × String))
    (rows : List Row) (old2 : PyVal) : Prop :=
  rows.map keyOf = keys ∧
  (∀ q, oldAvgOf old2 q = oldAvgOf oldS q) ∧
  (∀ r ∈ rows, oldAvgOf oldS (pathOf r) = .ok r.old_avg ∧ RowDelta r)

/-- Empty old aggregate used to exhibit the auto-vivification mutation of
compare_metrics. -/
def c7old : PyVal := .dict []

/-- New aggregate with a single (software, metric) pair, absent from
c7old. -/
def c7new : PyVal :=
  .dict [("a", .dict [("browsers", .dict [("b", .dict [("clients",
      .dict [("c", .dict [("m", .num 1)])])])])])]

/-- The post-call state of c7old: comparing against c7new inserts a chain
of empty vivified dicts for the missing key path. -/
def c7oldViv : PyVal :=
  .dict [("a", .dict [("browsers", .dict [("b", .dict [("clients",
      .dict [("c", .dict [("m", .dict [])])])])])])]

/-- The single comparison row produced from c7old and c7new. -/
def c7row : Row :=
  { os := "a", browser := "b", client := "c", metric := "m",
    old_avg := .str "none", new_avg := .num 1, change := .str "error" }

/-- Parsed-results structure whose one metric series has one valid sample
(value 2) and one empty sample: the input deciding the divisor of the
aggregated mean. -/
def c2ex : PyVal :=
  .dict [("u", .dict [("version", .str "14.04"), ("browsers", .dict [("ch",
      .dict [("version", .str "49"), ("clients", .dict [("cl", .dict [("td",
      .dict [("t1", .str "2"), ("t2", .str "")])])])])])])]

/-- The series of c2ex. -/
def c2series : List (String × PyVal) := [("t1", .str "2"), ("t2", .str "")]

/-- The state of c2ex after average_metrics: the series is replaced by the
mean 2 / 2 = 1.0, the empty sample counting in the divisor. -/
def c2exOut : PyVal :=
  .dict [("u", .dict [("version", .str "14.04"), ("browsers", .dict [("ch",
      .dict [("version", .str "49"), ("clients", .dict [("cl", .dict [("td",
      .num 1)])])])])])]

/-- Parsed-results structure whose one metric series has a single sample,
the empty string: zero valid samples. -/
def c6ex : PyVal :=
  .dict [("w", .dict [("version", .str "10"), ("browsers", .dict [("ff",
      .dict [("version", .str "45"), ("clients", .dict [("cl", .dict [("lat",
      .dict [("t1", .str "")])])])])])])]

/-- The state of c6ex after average_metrics: mean 0 / 1 = 0.0, with no
division by zero. -/
def c6exOut : PyVal :=
  .dict [("w", .dict [("version", .str "10"), ("browsers", .dict [("ff",
      .dict [("version", .str "45"), ("clients", .dict [("cl", .dict [("lat",
      .num 0)])])])])])]

/-- Parsed-results structure used to exhibit the in-place mutation of
average_metrics. -/
def c8ex : PyVal :=
  .dict [("o", .dict [("version", .str "1"), ("browsers", .dict [("br",
      .dict [("version", .str "2"), ("clients", .dict [("cl", .dict [("met",
      .dict [("t1", .str "5")])])])])])])]

/-- The state of c8ex after average_metrics: the caller's series dict has
been overwritten with the number 5.0. -/
def c8exOut : PyVal :=
  .dict [("o", .dict [("version", .str "1"), ("browsers", .dict [("br",
      .dict [("version", .str "2"), ("clients", .dict [("cl", .dict [("met",
      .num 5)])])])])])]

/-- A CSV header row as found in real E2E result files: its first field is
exactly the string Filename, so parse_csv skips it. -/
def headerRow : CsvRow :=
  { filename := "Filename", total_duration := "Total Duration (s)",
    c2s_speed := "Upload Throughput (Mbps)", c2s_duration := "Upload Duration (s)",
    s2c_speed := "Download Throughput (Mbps)", s2c_duration := "Download Duration (s)",
    latency := "Latency (ms)", has_error := "Error occurred?",
    error_list := "Error List" }

/-- A header row spelled with a lowercase first field: parse_csv treats it
as data and hands the field to parse_filename, which exits. -/
def lowerRow : CsvRow :=
  { filename := "filename", total_duration := "total_duration",
    c2s_speed := "c2s_speed", c2s_duration := "c2s_duration",
    s2c_speed := "s2c_speed", s2c_duration := "s2c_duration",
    latency := "latency", has_error := "has_error", error_list := "error_list" }

/-! Helper lemmas about the monadic plumbing and association lists. -/

theorem ebind_ok {ε σ τ : Type} {m : Except ε σ} {g : σ → Except ε τ} {v : τ} :
    (m >>= g) = .ok v ↔ ∃ u, m = .ok u ∧ g u = .ok v := by
  cases m with
  | error e => simp [Bind.bind, Except.bind]
  | ok u => simp [Bind.bind, Except.bind]

theorem epure_ok {ε α : Type} {a b : α} :
    (pure a : Except ε α) = .ok b ↔ a = b := by
  simp [pure, Except.pure]

theorem lookupKey_setKey_self {es : List (String × PyVal)} {k : String}
    {w v : PyVal} (h : lookupKey es k = some w) :
    lookupKey (setKey es k v) k = some v := by
  induction es with
  | nil => simp [lookupKey] at h
  | cons p t ih =>
      by_cases hk : p.1 = k
      · simp [lookupKey, setKey, hk]
      · simp [lookupKey, setKey, hk] at h ⊢
        exact ih h

theorem lookupKey_setKey_ne {es : List (String × PyVal)} {k k2 : String}
    {v : PyVal} (h : k2 ≠ k) :
    lookupKey (setKey es k v) k2 = lookupKey es k2 := by
  induction es with
  | nil => simp [setKey]
  | cons p t ih =>
      by_cases hk : p.1 = k
      · subst hk
        simp [lookupKey, setKey, Ne.symm h]
      · simp [lookupKey, setKey, hk]
        by_cases hk2 : p.1 = k2 <;> simp [hk2, ih]

theorem lookupKey_append_self {es : List (String × PyVal)} {k : String}
    {v : PyVal} (h : lookupKey es k = none) :
    lookupKey (es ++ [(k, v)]) k = some v := by
  induction es with
  | nil => simp [lookupKey]
  | cons p t ih =>
      by_cases hk : p.1 = k
      · simp [lookupKey, hk] at h
      · simp [lookupKey, hk] at h ⊢
        exact ih h

theorem lookupKey_append_ne {es : List (String × PyVal)} {k k2 : String}
    {v : PyVal} (h : k2 ≠ k) :
    lookupKey (es ++ [(k, v)]) k2 = lookupKey es k2 := by
  induction es with
  | nil => simp [lookupKey, Ne.symm h]
  | cons p t ih =>
      by_cases hk : p.1 = k2 <;> simp [lookupKey, hk, ih]

theorem lookupKey_setOrAppend_self {es : List (String × PyVal)} {k : String}
    {v : PyVal} : lookupKey (setOrAppend es k v) k = some v := by
  unfold setOrAppend
  cases h : lookupKey es k with
  | none => exact lookupKey_append_self h
  | some w => exact lookupKey_setKey_self h

theorem lookupKey_setOrAppend_ne {es : List (String × PyVal)} {k k2 : String}
    {v : PyVal} (h : k2 ≠ k) :
    lookupKey (setOrAppend es k v) k2 = lookupKey es k2 := by
  unfold setOrAppend
  cases hl : lookupKey es k with
  | none => exact lookupKey_append_ne h
  | some w => exact lookupKey_setKey_ne h

theorem mapVals_lookup {f : PyVal → Except PyExc PyVal}
    {es es2 : List (String × PyVal)} {k : String} {v : PyVal}
    (hm : mapVals f es = .ok es2) (hl : lookupKey es k = some v) :
    ∃ v2, f v = .ok v2 ∧ lookupKey es2 k = some v2 := by
  induction es generalizing es2 with
  | nil => simp [lookupKey] at hl
  | cons p t ih =>
      obtain ⟨k1, v1⟩ := p
      rw [mapVals] at hm
      rw [ebind_ok] at hm
      obtain ⟨w1, hw1, hm⟩ := hm
      rw [ebind_ok] at hm
      obtain ⟨t2, ht2, hm⟩ := hm
      rw [epure_ok] at hm
      subst hm
      by_cases hk : k1 = k
      · subst hk
        simp [lookupKey] at hl
        subst hl
        exact ⟨w1, hw1, by simp [lookupKey]⟩
      · simp [lookupKey, hk] at hl
        obtain ⟨v2, hv2, hlook⟩ := ih ht2 hl
        exact ⟨v2, hv2, by simp [lookupKey, hk, hlook]⟩

/-! Lemmas about auto-vivifying lookups: the value a chain yields, that a
vivified subtree answers none everywhere, and that vivification never
changes what any other chain yields. -/

theorem vivify_empty_fst (ks : List String) :
    ∀ {r1 w2 : PyVal}, vivifyGet (.dict []) ks = .ok (r1, w2) → r1 = .dict [] := by
  induction ks with
  | nil =>
      intro r1 w2 h
      rw [vivifyGet] at h
      rw [epure_ok] at h
      exact congrArg Prod.fst h.symm
  | cons k ks ih =>
      intro r1 w2 h
      rw [vivifyGet] at h
      simp only [lookupKey] at h
      rw [ebind_ok] at h
      obtain ⟨⟨r2, w3⟩, hrec, hp⟩ := h
      rw [epure_ok] at hp
      have h1 : r2 = r1 := congrArg Prod.fst hp
      exact h1 ▸ ih hrec

theorem vivifyGet_chainGet (p : List String) :
    ∀ {v r v2 : PyVal}, vivifyGet v p = .ok (r, v2) → chainGet v p = .ok r := by
  induction p with
  | nil =>
      intro v r v2 h
      rw [vivifyGet] at h
      rw [epure_ok] at h
      rw [chainGet, epure_ok]
      exact congrArg Prod.fst h
  | cons k ks ih =>
      intro v r v2 h
      cases v with
      | str s => simp [vivifyGet, throw, throwThe, MonadExceptOf.throw] at h
      | num q => simp [vivifyGet, throw, throwThe, MonadExceptOf.throw] at h
      | dict es =>
          rw [vivifyGet] at h
          cases hl : lookupKey es k with
          | some w =>
              rw [hl] at h
              rw [ebind_ok] at h
              obtain ⟨⟨r1, w2⟩, hrec, hp⟩ := h
              rw [epure_ok] at hp
              have h1 : r1 = r := congrArg Prod.fst hp
              rw [chainGet, hl]
              exact h1 ▸ ih hrec
          | none =>
              rw [hl] at h
              rw [ebind_ok] at h
              obtain ⟨⟨r1, w2⟩, hrec, hp⟩ := h
              rw [epure_ok] at hp
              have h1 : r1 = r := congrArg Prod.fst hp
              rw [chainGet, hl, epure_ok]
              exact h1 ▸ (vivify_empty_fst ks hrec).symm

theorem oldAvgOf_nil_dict {es : List (String × PyVal)} :
    oldAvgOf (.dict es) [] = .ok (.str "none") := rfl

theorem oldAvgOf_cons_some {es : List (String × PyVal)} {k : String} {w : PyVal}
    {qs : List String} (h : lookupKey es k = some w) :
    oldAvgOf (.dict es) (k :: qs) = oldAvgOf w qs := by
  rw [oldAvgOf, oldAvgOf, chainGet, h]

theorem oldAvgOf_cons_none {es : List (String × PyVal)} {k : String}
    {qs : List String} (h : lookupKey es k = none) :
    oldAvgOf (.dict es) (k :: qs) = .ok (.str "none") := by
  rw [oldAvgOf, chainGet, h]
  rfl

theorem oldAvgOf_empty (q : List String) :
    oldAvgOf (.dict []) q = .ok (.str "none") := by
  cases q with
  | nil => rfl
  | cons k qs => exact oldAvgOf_cons_none rfl

theorem vivified_allNone (ks : List String) :
    ∀ {r w2 : PyVal}, vivifyGet (.dict []) ks = .ok (r, w2) →
      ∀ q, oldAvgOf w2 q = .ok (.str "none") := by
  induction ks with
  | nil =>
      intro r w2 h q
      rw [vivifyGet] at h
      rw [epure_ok] at h
      have h2 : (PyVal.dict []) = w2 := congrArg Prod.snd h
      exact h2 ▸ oldAvgOf_empty q
  | cons k ks ih =>
      intro r w2 h q
      rw [vivifyGet] at h
      simp only [lookupKey] at h
      rw [ebind_ok] at h
      obtain ⟨⟨r2, w3⟩, hrec, hp⟩ := h
      rw [epure_ok] at hp
      have h2 : PyVal.dict ([] ++ [(k, w3)]) = w2 := congrArg Prod.snd hp
      subst h2
      cases q with
      | nil => exact oldAvgOf_nil_dict
      | cons k2 qs =>
          by_cases hk : k = k2
          · subst hk
            have hlk : lookupKey ([] ++ [(k, w3)]) k = some w3 := by
              simp [lookupKey]
            rw [oldAvgOf_cons_some hlk]
            exact ih hrec qs
          · have hlk : lookupKey ([] ++ [(k, w3)]) k2 = none := by
              simp [lookupKey, hk]
            exact oldAvgOf_cons_none hlk

theorem vivify_preserves (p : List String) :
    ∀ {v r v2 : PyVal}, vivifyGet v p = .ok (r, v2) →
      ∀ q, oldAvgOf v2 q = oldAvgOf v q := by
  induction p with
  | nil =>
      intro v r v2 h q
      rw [vivifyGet] at h
      rw [epure_ok] at h
      have h2 : v = v2 := congrArg Prod.snd h
      rw [h2]
  | cons k ks ih =>
      intro v r v2 h q
      cases v with
      | str s => simp [vivifyGet, throw, throwThe, MonadExceptOf.throw] at h
      | num q2 => simp [vivifyGet, throw, throwThe, MonadExceptOf.throw] at h
      | dict es =>
          rw [vivifyGet] at h
          cases hl : lookupKey es k with
          | some w =>
              rw [hl] at h
              rw [ebind_ok] at h
              obtain ⟨⟨r1, w2⟩, hrec, hp⟩ := h
              rw [epure_ok] at hp
              have h2 : PyVal.dict (setKey es k w2) = v2 := congrArg Prod.snd hp
              subst h2
              cases q with
              | nil => rfl
              | cons k2 qs =>
                  by_cases hk : k2 = k
                  · subst hk
                    rw [oldAvgOf_cons_some (lookupKey_setKey_self hl),
                      oldAvgOf_cons_some hl]
                    exact ih hrec qs
                  · rw [oldAvgOf, oldAvgOf, chainGet, chainGet,
                      lookupKey_setKey_ne hk]
          | none =>
              rw [hl] at h
              rw [ebind_ok] at h
              obtain ⟨⟨r1, w2⟩, hrec, hp⟩ := h
              rw [epure_ok] at hp
              have h2 : PyVal.dict (es ++ [(k, w2)]) = v2 := congrArg Prod.snd hp
              subst h2
              cases q with
              | nil => rfl
              | cons k2 qs =>
                  by_cases hk : k2 = k
                  · subst hk
                    rw [oldAvgOf_cons_some (lookupKey_append_self hl),
                      oldAvgOf_cons_none hl]
                    exact vivified_allNone ks hrec qs
                  · rw [oldAvgOf, oldAvgOf, chainGet, chainGet,
                      lookupKey_append_ne hk]

theorem oldAvgOf_absent (p : List String) :
    ∀ {v x : PyVal}, oldAvgOf v p = .ok x → lookupPath v p = none →
      x = .str "none" := by
  induction p with
  | nil =>
      intro v x h habs
      simp [lookupPath] at habs
  | cons k ks ih =>
      intro v x h habs
      cases v with
      | str s => simp [oldAvgOf, chainGet, throw, throwThe, MonadExceptOf.throw,
          Except.map] at h
      | num q => simp [oldAvgOf, chainGet, throw, throwThe, MonadExceptOf.throw,
          Except.map] at h
      | dict es =>
          cases hl : lookupKey es k with
          | some w =>
              rw [oldAvgOf_cons_some hl] at h
              rw [lookupPath, hl] at habs
              exact ih h habs
          | none =>
              rw [oldAvgOf_cons_none hl] at h
              cases h
              rfl

/-! Lemmas tracking the rows of compare_metrics through its loop levels. -/

theorem pyDelta_spec {oa na d : PyVal} (h : pyDelta oa na = .ok d) :
    (∃ n o, na = .num n ∧ oa = .num o ∧ n ≠ 0 ∧ o ≠ 0 ∧
        d = .num (round2 ((n - o) / n) * 100)) ∨
    (d = .str "error" ∧ (na = .num 0 ∨ oa = .num 0 ∨ oa = .str "none")) := by
  cases oa with
  | str s =>
      by_cases hs : s = "none"
      · subst hs
        cases na <;>
          · simp [pyDelta, pure, Except.pure] at h
            exact Or.inr ⟨h.symm, Or.inr (Or.inr rfl)⟩
      · cases na with
        | str s2 =>
            simp [pyDelta, hs, throw, throwThe, MonadExceptOf.throw] at h
        | dict es =>
            simp [pyDelta, hs, throw, throwThe, MonadExceptOf.throw] at h
        | num n =>
            by_cases hn : n = 0
            · subst hn
              simp [pyDelta, hs, pure, Except.pure] at h
              exact Or.inr ⟨h.symm, Or.inl rfl⟩
            · simp [pyDelta, hs, hn, throw, throwThe, MonadExceptOf.throw] at h
  | dict es =>
      cases na with
      | str s2 => simp [pyDelta, throw, throwThe, MonadExceptOf.throw] at h
      | dict es2 => simp [pyDelta, throw, throwThe, MonadExceptOf.throw] at h
      | num n =>
          by_cases hn : n = 0
          · subst hn
            simp [pyDelta, pure, Except.pure] at h
            exact Or.inr ⟨h.symm, Or.inl rfl⟩
          · simp [pyDelta, hn, throw, throwThe, MonadExceptOf.throw] at h
  | num o =>
      by_cases ho : o = 0
      · subst ho
        cases na with
        | str s2 =>
            simp [pyDelta, pure, Except.pure] at h
            exact Or.inr ⟨h.symm, Or.inr (Or.inl rfl)⟩
        | dict es2 =>
            simp [pyDelta, pure, Except.pure] at h
            exact Or.inr ⟨h.symm, Or.inr (Or.inl rfl)⟩
        | num n =>
            simp [pyDelta, pure, Except.pure] at h
            exact Or.inr ⟨h.symm, Or.inr (Or.inl rfl)⟩
      · cases na with
        | str s2 => simp [pyDelta, ho, throw, throwThe, MonadExceptOf.throw] at h
        | dict es2 => simp [pyDelta, ho, throw, throwThe, MonadExceptOf.throw] at h
        | num n =>
            by_cases hn : n = 0
            · subst hn
              simp [pyDelta, ho, pure, Except.pure] at h
              exact Or.inr ⟨h.symm, Or.inl rfl⟩
            · simp [pyDelta, ho, hn, pure, Except.pure] at h
              exact Or.inl ⟨n, o, rfl, rfl, hn, ho, h.symm⟩

theorem compareStep_spec {oldS : PyVal} {o b c metric : String} {nv : PyVal}
    {row : Row} {old2 : PyVal}
    (h : compareStep oldS o b c metric nv = .ok (row, old2)) :
    row.os = o ∧ row.browser = b ∧ row.client = c ∧ row.metric = metric ∧
    row.new_avg = nv ∧
    (∀ q, oldAvgOf old2 q = oldAvgOf oldS q) ∧
    oldAvgOf oldS (pathOf row) = .ok row.old_avg ∧ RowDelta row := by
  rw [compareStep] at h
  rw [ebind_ok] at h
  obtain ⟨⟨ov, oldv⟩, hviv, h⟩ := h
  rw [ebind_ok] at h
  obtain ⟨delta, hdelta, h⟩ := h
  rw [epure_ok] at h
  have hrow : _ = row := congrArg Prod.fst h
  have hold : oldv = old2 := congrArg Prod.snd h
  subst hrow
  subst hold
  refine ⟨rfl, rfl, rfl, rfl, rfl, vivify_preserves _ hviv, ?_, ?_⟩
  · have hchain := vivifyGet_chainGet _ hviv
    simp only [pathOf]
    rw [oldAvgOf, hchain]
    cases ov <;> rfl
  · rcases pyDelta_spec hdelta with hleft | hright
    · exact Or.inl hleft
    · exact Or.inr hright

theorem RowsSpec_nil {oldS : PyVal} : RowsSpec oldS [] [] oldS :=
  ⟨rfl, fun _ => rfl, fun r hr => absurd hr (List.not_mem_nil r)⟩

theorem RowsSpec_append {oldS old2 old3 : PyVal}
    {keys1 keys2 : List (String × String × String × String)}
    {rows1 rows2 : List Row}
    (h1 : RowsSpec oldS keys1 rows1 old2) (h2 : RowsSpec old2 keys2 rows2 old3) :
    RowsSpec oldS (keys1 ++ keys2) (rows1 ++ rows2) old3 := by
  obtain ⟨hk1, hp1, hr1⟩ := h1
  obtain ⟨hk2, hp2, hr2⟩ := h2
  refine ⟨by simp [hk1, hk2], fun q => (hp2 q).trans (hp1 q), fun r hr => ?_⟩
  rcases List.mem_append.mp hr with hmem | hmem
  · exact hr1 r hmem
  · obtain ⟨ha, hd⟩ := hr2 r hmem
    exact ⟨(hp1 (pathOf r)).symm.trans ha, hd⟩

theorem cmp_metrics_spec (o b c : String) (es : List (String × PyVal)) :
    ∀ {oldS : PyVal} {rows : List Row} {old2 : PyVal},
      compareMetricsList oldS o b c es = .ok (rows, old2) →
      RowsSpec oldS (es.map (fun p => (o, b, c, p.1))) rows old2 := by
  induction es with
  | nil =>
      intro oldS rows old2 h
      rw [compareMetricsList] at h
      rw [epure_ok] at h
      have h1 : [] = rows := congrArg Prod.fst h
      have h2 : oldS = old2 := congrArg Prod.snd h
      subst h1
      subst h2
      exact RowsSpec_nil
  | cons p t ih =>
      intro oldS rows old2 h
      obtain ⟨metric, nv⟩ := p
      rw [compareMetricsList] at h
      rw [ebind_ok] at h
      obtain ⟨⟨row, oldA⟩, hstep, h⟩ := h
      rw [ebind_ok] at h
      obtain ⟨⟨rowsT, oldB⟩, htail, h⟩ := h
      rw [epure_ok] at h
      have h1 : row :: rowsT = rows := congrArg Prod.fst h
      have h2 : oldB = old2 := congrArg Prod.snd h
      subst h1
      subst h2
      obtain ⟨hos, hb, hc, hm, hnv, hpres, havg, hdelta⟩ := compareStep_spec hstep
      obtain ⟨hkT, hpT, hrT⟩ := ih htail
      refine ⟨?_, fun q => (hpT q).trans (hpres q), fun r hr => ?_⟩
      · simp only [List.map_cons, hkT, keyOf, hos, hb, hc, hm]
      · rcases List.mem_cons.mp hr with heq | hmem
        · subst heq
          exact ⟨havg, hdelta⟩
        · obtain ⟨ha, hd⟩ := hrT r hmem
          exact ⟨(hpres (pathOf r)).symm.trans ha, hd⟩

theorem cmp_clientval_spec (o b c : String) (cv : PyVal) :
    ∀ {oldS : PyVal} {rows : List Row} {old2 : PyVal},
      compareClientVal oldS o b c cv = .ok (rows, old2) →
      RowsSpec oldS (clientKeys o b c cv) rows old2 := by
  intro oldS rows old2 h
  cases cv with
  | dict es => exact cmp_metrics_spec o b c es h
  | num q => simp [compareClientVal, throw, throwThe, MonadExceptOf.throw] at h
  | str s =>
      rw [compareClientVal] at h
      by_cases hs : s.isEmpty
      · rw [if_pos hs, epure_ok] at h
        have h1 : [] = rows := congrArg Prod.fst h
        have h2 : oldS = old2 := congrArg Prod.snd h
        subst h1
        subst h2
        exact RowsSpec_nil
      · rw [if_neg hs] at h
        simp [throw, throwThe, MonadExceptOf.throw] at h

theorem cmp_clients_spec (o b : String) (ces : List (String × PyVal)) :
    ∀ {oldS : PyVal} {rows : List Row} {old2 : PyVal},
      compareClientsList oldS o b ces = .ok (rows, old2) →
      RowsSpec oldS (ces.flatMap (fun p => clientKeys o b p.1 p.2)) rows old2 := by
  induction ces with
  | nil =>
      intro oldS rows old2 h
      rw [compareClientsList] at h
      rw [epure_ok] at h
      have h1 : [] = rows := congrArg Prod.fst h
      have h2 : oldS = old2 := congrArg Prod.snd h
      subst h1
      subst h2
      exact RowsSpec_nil
  | cons p t ih =>
      intro oldS rows old2 h
      obtain ⟨c, cv⟩ := p
      rw [compareClientsList] at h
      rw [ebind_ok] at h
      obtain ⟨⟨rows1, oldA⟩, hhead, h⟩ := h
      rw [ebind_ok] at h
      obtain ⟨⟨rows2, oldB⟩, htail, h⟩ := h
      rw [epure_ok] at h
      have h1 : rows1 ++ rows2 = rows := congrArg Prod.fst h
      have h2 : oldB = old2 := congrArg Prod.snd h
      subst h1
      subst h2
      simpa using RowsSpec_append (cmp_clientval_spec o b c cv hhead) (ih htail)

theorem cmp_browserval_spec (o b : String) (bv : PyVal) :
    ∀ {oldS : PyVal} {rows : List Row} {old2 bv2 : PyVal},
      compareBrowserVal oldS o b bv = .ok (rows, old2, bv2) →
      RowsSpec oldS (browserKeys o b bv) rows old2 := by
  intro oldS rows old2 bv2 h
  cases bv with
  | num q => simp [compareBrowserVal, throw, throwThe, MonadExceptOf.throw] at h
  | str s => simp [compareBrowserVal, throw, throwThe, MonadExceptOf.throw] at h
  | dict es =>
      cases hl : lookupKey es "clients" with
      | some cw =>
          cases cw with
          | dict ces =>
              simp only [compareBrowserVal, getVivify, hl] at h
              rw [ebind_ok] at h
              obtain ⟨⟨rows1, oldA⟩, hcl, h⟩ := h
              rw [epure_ok] at h
              have h1 : rows1 = rows := congrArg Prod.fst h
              have h2 : oldA = old2 := congrArg (fun x => x.2.1) h
              subst h1
              subst h2
              have := cmp_clients_spec o b ces hcl
              simpa [browserKeys, hl] using this
          | num q2 =>
              simp [compareBrowserVal, getVivify, hl, throw, throwThe,
                MonadExceptOf.throw] at h
          | str s =>
              simp only [compareBrowserVal, getVivify, hl] at h
              by_cases hs : s.isEmpty
              · rw [if_pos hs, epure_ok] at h
                have h1 : [] = rows := congrArg Prod.fst h
                have h2 : oldS = old2 := congrArg (fun x => x.2.1) h
                subst h1
                subst h2
                simpa [browserKeys, hl] using RowsSpec_nil
              · rw [if_neg hs] at h
                simp [throw, throwThe, MonadExceptOf.throw] at h
      | none =>
          simp only [compareBrowserVal, getVivify, hl] at h
          rw [ebind_ok] at h
          obtain ⟨⟨rows1, oldA⟩, hcl, h⟩ := h
          rw [epure_ok] at h
          have h1 : rows1 = rows := congrArg Prod.fst h
          have h2 : oldA = old2 := congrArg (fun x => x.2.1) h
          subst h1
          subst h2
          rw [compareClientsList, epure_ok] at hcl
          have h3 : [] = rows1 := congrArg Prod.fst hcl
          have h4 : oldS = oldA := congrArg Prod.snd hcl
          subst h3
          subst h4
          simpa [browserKeys, hl] using RowsSpec_nil

theorem cmp_browsers_spec (o : String) (bes : List (String × PyVal)) :
    ∀ {oldS : PyVal} {rows : List Row} {old2 : PyVal}
      {bes2 : List (String × PyVal)},
      compareBrowsersList oldS o bes = .ok (rows, old2, bes2) →
      RowsSpec oldS (bes.flatMap (fun p => browserKeys o p.1 p.2)) rows old2 := by
  induction bes with
  | nil =>
      intro oldS rows old2 bes2 h
      rw [compareBrowsersList] at h
      rw [epure_ok] at h
      have h1 : [] = rows := congrArg Prod.fst h
      have h2 : oldS = old2 := congrArg (fun x => x.2.1) h
      subst h1
      subst h2
      exact RowsSpec_nil
  | cons p t ih =>
      intro oldS rows old2 bes2 h
      obtain ⟨b, bv⟩ := p
      rw [compareBrowsersList] at h
      rw [ebind_ok] at h
      obtain ⟨⟨rows1, oldA, bv2⟩, hhead, h⟩ := h
      rw [ebind_ok] at h
      obtain ⟨⟨rows2, oldB, t2⟩, htail, h⟩ := h
      rw [epure_ok] at h
      have h1 : rows1 ++ rows2 = rows := congrArg Prod.fst h
      have h2 : oldB = old2 := congrArg (fun x => x.2.1) h
      subst h1
      subst h2
      simpa using RowsSpec_append (cmp_browserval_spec o b bv hhead) (ih htail)

theorem cmp_osval_spec (o : String) (ov : PyVal) :
    ∀ {oldS : PyVal} {rows : List Row} {old2 ov2 : PyVal},
      compareOsVal oldS o ov = .ok (rows, old2, ov2) →
      RowsSpec oldS (osKeys o ov) rows old2 := by
  intro oldS rows old2 ov2 h
  cases ov with
  | num q => simp [compareOsVal, throw, throwThe, MonadExceptOf.throw] at h
  | str s => simp [compareOsVal, throw, throwThe, MonadExceptOf.throw] at h
  | dict es =>
      cases hl : lookupKey es "browsers" with
      | some bw =>
          cases bw with
          | dict bes =>
              simp only [compareOsVal, getVivify, hl] at h
              rw [ebind_ok] at h
              obtain ⟨⟨rows1, oldA, b2⟩, hbl, h⟩ := h
              rw [epure_ok] at h
              have h1 : rows1 = rows := congrArg Prod.fst h
              have h2 : oldA = old2 := congrArg (fun x => x.2.1) h
              subst h1
              subst h2
              have := cmp_browsers_spec o bes hbl
              simpa [osKeys, hl] using this
          | num q2 =>
              simp [compareOsVal, getVivify, hl, throw, throwThe,
                MonadExceptOf.throw] at h
          | str s =>
              simp only [compareOsVal, getVivify, hl] at h
              by_cases hs : s.isEmpty
              · rw [if_pos hs, epure_ok] at h
                have h1 : [] = rows := congrArg Prod.fst h
                have h2 : oldS = old2 := congrArg (fun x => x.2.1) h
                subst h1
                subst h2
                simpa [osKeys, hl] using RowsSpec_nil
              · rw [if_neg hs] at h
                simp [throw, throwThe, MonadExceptOf.throw] at h
      | none =>
          simp only [compareOsVal, getVivify, hl] at h
          rw [ebind_ok] at h
          obtain ⟨⟨rows1, oldA, b2⟩, hbl, h⟩ := h
          rw [epure_ok] at h
          have h1 : rows1 = rows := congrArg Prod.fst h
          have h2 : oldA = old2 := congrArg (fun x => x.2.1) h
          subst h1
          subst h2
          rw [compareBrowsersList, epure_ok] at hbl
          have h3 : [] = rows1 := congrArg Prod.fst hbl
          have h4 : oldS = oldA := congrArg (fun x => x.2.1) hbl
          subst h3
          subst h4
          simpa [osKeys, hl] using RowsSpec_nil

theorem cmp_os_spec (es : List (String × PyVal)) :
    ∀ {oldS : PyVal} {rows : List Row} {old2 : PyVal}
      {es2 : List (String × PyVal)},
      compareOsList oldS es = .ok (rows, old2, es2) →
      RowsSpec oldS (es.flatMap (fun p => osKeys p.1 p.2)) rows old2 := by
  induction es with
  | nil =>
      intro oldS rows old2 es2 h
      rw [compareOsList] at h
      rw [epure_ok] at h
      have h1 : [] = rows := congrArg Prod.fst h
      have h2 : oldS = old2 := congrArg (fun x => x.2.1) h
      subst h1
      subst h2
      exact RowsSpec_nil
  | cons p t ih =>
      intro oldS rows old2 es2 h
      obtain ⟨o, ov⟩ := p
      rw [compareOsList] at h
      rw [ebind_ok] at h
      obtain ⟨⟨rows1, oldA, ov2⟩, hhead, h⟩ := h
      rw [ebind_ok] at h
      obtain ⟨⟨rows2, oldB, t2⟩, htail, h⟩ := h
      rw [epure_ok] at h
      have h1 : rows1 ++ rows2 = rows := congrArg Prod.fst h
      have h2 : oldB = old2 := congrArg (fun x => x.2.1) h
      subst h1
      subst h2
      simpa using RowsSpec_append (cmp_osval_spec o ov hhead) (ih htail)

theorem compare_metrics_spec {old new : PyVal} {rows : List Row}
    {oldOut newOut : PyVal}
    (h : compare_metrics old new = .ok (rows, oldOut, newOut)) :
    RowsSpec old (aggKeys new) rows oldOut := by
  cases new with
  | num q => simp [compare_metrics, throw, throwThe, MonadExceptOf.throw] at h
  | str s =>
      rw [compare_metrics] at h
      by_cases hs : s.isEmpty
      · rw [if_pos hs, epure_ok] at h
        have h1 : [] = rows := congrArg Prod.fst h
        have h2 : old = oldOut := congrArg (fun x => x.2.1) h
        subst h1
        subst h2
        exact RowsSpec_nil
      · rw [if_neg hs] at h
        simp [throw, throwThe, MonadExceptOf.throw] at h
  | dict es =>
      rw [compare_metrics] at h
      rw [ebind_ok] at h
      obtain ⟨⟨rows1, oldA, e2⟩, hos, h⟩ := h
      rw [epure_ok] at h
      have h1 : rows1 = rows := congrArg Prod.fst h
      have h2 : oldA = oldOut := congrArg (fun x => x.2.1) h
      subst h1
      subst h2
      exact cmp_os_spec es hos

/-! Lemmas showing compare_metrics leaves a well-formed new aggregate
unchanged: every defaultdict lookup it performs on new hits a present
key. -/

theorem setKey_self {es : List (String × PyVal)} {k : String} {v : PyVal}
    (h : lookupKey es k = some v) : setKey es k v = es := by
  induction es with
  | nil => rfl
  | cons p t ih =>
      obtain ⟨k2, w⟩ := p
      by_cases hk : k2 = k
      · rw [lookupKey] at h
        rw [if_pos hk] at h
        cases h
        simp [setKey, hk]
      · rw [lookupKey] at h
        rw [if_neg hk] at h
        simp [setKey, hk, ih h]

theorem cmp_browserval_new {o b : String} {bv oldS : PyVal} {rows : List Row}
    {old2 bv2 : PyVal} (hwf : wfBrowserVal bv = true)
    (h : compareBrowserVal oldS o b bv = .ok (rows, old2, bv2)) : bv2 = bv := by
  cases bv with
  | num q => simp [wfBrowserVal] at hwf
  | str s => simp [wfBrowserVal] at hwf
  | dict es =>
      cases hl : lookupKey es "clients" with
      | none => simp [wfBrowserVal, hl] at hwf
      | some cw =>
          cases cw with
          | num q2 => simp [wfBrowserVal, hl] at hwf
          | str s => simp [wfBrowserVal, hl] at hwf
          | dict ces =>
              simp only [compareBrowserVal, getVivify, hl] at h
              rw [ebind_ok] at h
              obtain ⟨⟨rows1, oldA⟩, _, h⟩ := h
              rw [epure_ok] at h
              exact (congrArg (fun x => x.2.2) h).symm

theorem cmp_browsers_new {o : String} {bes : List (String × PyVal)} :
    ∀ {oldS : PyVal} {rows : List Row} {old2 : PyVal}
      {bes2 : List (String × PyVal)},
      (∀ p ∈ bes, wfBrowserVal p.2 = true) →
      compareBrowsersList oldS o bes = .ok (rows, old2, bes2) → bes2 = bes := by
  induction bes with
  | nil =>
      intro oldS rows old2 bes2 _ h
      rw [compareBrowsersList, epure_ok] at h
      exact (congrArg (fun x => x.2.2) h).symm
  | cons p t ih =>
      intro oldS rows old2 bes2 hwf h
      obtain ⟨b, bv⟩ := p
      rw [compareBrowsersList] at h
      rw [ebind_ok] at h
      obtain ⟨⟨rows1, oldA, bv2⟩, hhead, h⟩ := h
      rw [ebind_ok] at h
      obtain ⟨⟨rows2, oldB, t2⟩, htail, h⟩ := h
      rw [epure_ok] at h
      have hbv : bv2 = bv :=
        cmp_browserval_new (hwf (b, bv) (List.mem_cons_self _ _)) hhead
      have ht : t2 = t := ih (fun p hp => hwf p (List.mem_cons_of_mem _ hp)) htail
      have h2 : (b, bv2) :: t2 = bes2 := congrArg (fun x => x.2.2) h
      rw [hbv, ht] at h2
      exact h2.symm

theorem cmp_osval_new {o : String} {ov oldS : PyVal} {rows : List Row}
    {old2 ov2 : PyVal} (hwf : wfOsVal ov = true)
    (h : compareOsVal oldS o ov = .ok (rows, old2, ov2)) : ov2 = ov := by
  cases ov with
  | num q => simp [wfOsVal] at hwf
  | str s => simp [wfOsVal] at hwf
  | dict es =>
      cases hl : lookupKey es "browsers" with
      | none => simp [wfOsVal, hl] at hwf
      | some bw =>
          cases bw with
          | num q2 => simp [wfOsVal, hl] at hwf
          | str s => simp [wfOsVal, hl] at hwf
          | dict bes =>
              simp only [compareOsVal, getVivify, hl] at h
              rw [ebind_ok] at h
              obtain ⟨⟨rows1, oldA, b2⟩, hbl, h⟩ := h
              rw [epure_ok] at h
              have hwfb : ∀ p ∈ bes, wfBrowserVal p.2 = true := by
                simp only [wfOsVal, hl, Bool.and_eq_true, decide_eq_true_eq,
                  List.all_eq_true] at hwf
                exact fun p hp => hwf.2.2 p hp
              have hb : b2 = bes := cmp_browsers_new hwfb hbl
              have h2 : _ = ov2 := congrArg (fun x => x.2.2) h
              rw [← h2, hb, setOrAppend, hl, setKey_self hl]

theorem cmp_os_new {es : List (String × PyVal)} :
    ∀ {oldS : PyVal} {rows : List Row} {old2 : PyVal}
      {es2 : List (String × PyVal)},
      (∀ p ∈ es, wfOsVal p.2 = true) →
      compareOsList oldS es = .ok (rows, old2, es2) → es2 = es := by
  induction es with
  | nil =>
      intro oldS rows old2 es2 _ h
      rw [compareOsList, epure_ok] at h
      exact (congrArg (fun x => x.2.2) h).symm
  | cons p t ih =>
      intro oldS rows old2 es2 hwf h
      obtain ⟨o, ov⟩ := p
      rw [compareOsList] at h
      rw [ebind_ok] at h
      obtain ⟨⟨rows1, oldA, ov2⟩, hhead, h⟩ := h
      rw [ebind_ok] at h
      obtain ⟨⟨rows2, oldB, t2⟩, htail, h⟩ := h
      rw [epure_ok] at h
      have hov : ov2 = ov := cmp_osval_new (hwf (o, ov) (List.mem_cons_self _ _)) hhead
      have ht : t2 = t := ih (fun p hp => hwf p (List.mem_cons_of_mem _ hp)) htail
      have h2 : (o, ov2) :: t2 = es2 := congrArg (fun x => x.2.2) h
      rw [hov, ht] at h2
      exact h2.symm

theorem compare_metrics_new {old new : PyVal} {rows : List Row}
    {oldOut newOut : PyVal} (hwf : wfAgg new = true)
    (h : compare_metrics old new = .ok (rows, oldOut, newOut)) : newOut = new := by
  cases new with
  | num q => simp [wfAgg] at hwf
  | str s => simp [wfAgg] at hwf
  | dict es =>
      rw [compare_metrics] at h
      rw [ebind_ok] at h
      obtain ⟨⟨rows1, oldA, e2⟩, hos, h⟩ := h
      rw [epure_ok] at h
      have hwfo : ∀ p ∈ es, wfOsVal p.2 = true := by
        simp only [wfAgg, Bool.and_eq_true, decide_eq_true_eq,
          List.all_eq_true] at hwf
        exact fun p hp => hwf.2 p hp
      have he : e2 = es := cmp_os_new hwfo hos
      have h2 : _ = newOut := congrArg (fun x => x.2.2) h
      rw [← h2, he]

/-! Nodup of the (software, metric) pairs listed by a well-formed new
aggregate: each level's keys are distinct and tag their sublists. -/

theorem nodup_flatMap_keys {α : Type} (g : String × String × String × String → String)
    (l : List (String × α)) (f : String × α → List (String × String × String × String))
    (hn : (l.map Prod.fst).Nodup)
    (hf : ∀ p ∈ l, (f p).Nodup)
    (hg : ∀ p ∈ l, ∀ x ∈ f p, g x = p.1) :
    (l.flatMap f).Nodup := by
  induction l with
  | nil => simp
  | cons p t ih =>
      rw [List.map_cons, List.nodup_cons] at hn
      rw [List.flatMap_cons, List.nodup_append]
      refine ⟨hf p (List.mem_cons_self _ _),
        ih hn.2 (fun q hq => hf q (List.mem_cons_of_mem _ hq))
          (fun q hq => hg q (List.mem_cons_of_mem _ hq)), ?_⟩
      intro x hx hx2
      obtain ⟨q, hq, hxq⟩ := List.mem_flatMap.mp hx2
      have hgx : g x = p.1 := hg p (List.mem_cons_self _ _) x hx
      have hgy : g x = q.1 := hg q (List.mem_cons_of_mem _ hq) x hxq
      apply hn.1
      rw [← hgx, hgy]
      exact List.mem_map.mpr ⟨q, hq, rfl⟩

theorem clientKeys_nodup {o b c : String} {cv : PyVal}
    (hwf : wfClientDict cv = true) : (clientKeys o b c cv).Nodup := by
  cases cv with
  | num q => simp [clientKeys]
  | str s => simp [clientKeys]
  | dict es =>
      simp only [wfClientDict, decide_eq_true_eq] at hwf
      have : clientKeys o b c (.dict es) = (es.map Prod.fst).map (fun k => (o, b, c, k)) := by
        simp [clientKeys]
      rw [this]
      exact hwf.map (fun x y hxy => by
        simpa using congrArg (fun t => t.2.2.2) hxy)

theorem clientKeys_tag {o b c : String} {cv : PyVal} :
    ∀ x ∈ clientKeys o b c cv, x.2.2.1 = c := by
  cases cv with
  | num q => simp [clientKeys]
  | str s => simp [clientKeys]
  | dict es =>
      intro x hx
      obtain ⟨p, _, hp⟩ := List.mem_map.mp hx
      rw [← hp]

theorem browserKeys_nodup {o b : String} {bv : PyVal}
    (hwf : wfBrowserVal bv = true) : (browserKeys o b bv).Nodup := by
  cases bv with
  | num q => simp [browserKeys]
  | str s => simp [browserKeys]
  | dict es =>
      cases hl : lookupKey es "clients" with
      | none => simp [wfBrowserVal, hl] at hwf
      | some cw =>
          cases cw with
          | num q2 => simp [wfBrowserVal, hl] at hwf
          | str s => simp [wfBrowserVal, hl] at hwf
          | dict ces =>
              simp only [wfBrowserVal, hl, Bool.and_eq_true, decide_eq_true_eq,
                List.all_eq_true] at hwf
              simp only [browserKeys, hl]
              exact nodup_flatMap_keys (fun x => x.2.2.1) ces
                (fun p => clientKeys o b p.1 p.2) hwf.2.1
                (fun p hp => clientKeys_nodup (hwf.2.2 p hp))
                (fun p _ => clientKeys_tag)

theorem browserKeys_tag {o b : String} {bv : PyVal} :
    ∀ x ∈ browserKeys o b bv, x.2.1 = b := by
  cases bv with
  | num q => simp [browserKeys]
  | str s => simp [browserKeys]
  | dict es =>
      cases hl : lookupKey es "clients" with
      | none => simp [browserKeys, hl]
      | some cw =>
          cases cw with
          | num q2 => simp [browserKeys, hl]
          | str s => simp [browserKeys, hl]
          | dict ces =>
              simp only [browserKeys, hl]
              intro x hx
              obtain ⟨p, _, hp⟩ := List.mem_flatMap.mp hx
              revert hp
              cases hcv : p.2 with
              | num q2 => simp [clientKeys]
              | str s => simp [clientKeys]
              | dict ms =>
                  intro hp
                  obtain ⟨m, _, hm⟩ := List.mem_map.mp hp
                  rw [← hm]

theorem clientKeys_tag1 {o b c : String} {cv : PyVal} :
    ∀ x ∈ clientKeys o b c cv, x.1 = o := by
  cases cv with
  | num q => simp [clientKeys]
  | str s => simp [clientKeys]
  | dict es =>
      intro x hx
      obtain ⟨p, _, hp⟩ := List.mem_map.mp hx
      rw [← hp]

theorem browserKeys_tag1 {o b : String} {bv : PyVal} :
    ∀ x ∈ browserKeys o b bv, x.1 = o := by
  cases bv with
  | num q => simp [browserKeys]
  | str s => simp [browserKeys]
  | dict es =>
      cases hl : lookupKey es "clients" with
      | none => simp [browserKeys, hl]
      | some cw =>
          cases cw with
          | num q2 => simp [browserKeys, hl]
          | str s => simp [browserKeys, hl]
          | dict ces =>
              simp only [browserKeys, hl]
              intro x hx
              obtain ⟨p, _, hxp⟩ := List.mem_flatMap.mp hx
              exact clientKeys_tag1 x hxp

theorem osKeys_nodup {o : String} {ov : PyVal}
    (hwf : wfOsVal ov = true) : (osKeys o ov).Nodup := by
  cases ov with
  | num q => simp [osKeys]
  | str s => simp [osKeys]
  | dict es =>
      cases hl : lookupKey es "browsers" with
      | none => simp [wfOsVal, hl] at hwf
      | some bw =>
          cases bw with
          | num q2 => simp [wfOsVal, hl] at hwf
          | str s => simp [wfOsVal, hl] at hwf
          | dict bes =>
              simp only [wfOsVal, hl, Bool.and_eq_true, decide_eq_true_eq,
                List.all_eq_true] at hwf
              simp only [osKeys, hl]
              exact nodup_flatMap_keys (fun x => x.2.1) bes
                (fun p => browserKeys o p.1 p.2) hwf.2.1
                (fun p hp => browserKeys_nodup (hwf.2.2 p hp))
                (fun p _ => browserKeys_tag)

theorem osKeys_tag {o : String} {ov : PyVal} :
    ∀ x ∈ osKeys o ov, x.1 = o := by
  cases ov with
  | num q => simp [osKeys]
  | str s => simp [osKeys]
  | dict es =>
      cases hl : lookupKey es "browsers" with
      | none => simp [osKeys, hl]
      | some bw =>
          cases bw with
          | num q2 => simp [osKeys, hl]
          | str s => simp [osKeys, hl]
          | dict bes =>
              simp only [osKeys, hl]
              intro x hx
              obtain ⟨p, hp, hxp⟩ := List.mem_flatMap.mp hx
              exact browserKeys_tag1 x hxp

theorem aggKeys_nodup {v : PyVal} (hwf : wfAgg v = true) : (aggKeys v).Nodup := by
  cases v with
  | num q => simp [aggKeys]
  | str s => simp [aggKeys]
  | dict es =>
      simp only [wfAgg, Bool.and_eq_true, decide_eq_true_eq,
        List.all_eq_true] at hwf
      simp only [aggKeys]
      exact nodup_flatMap_keys (fun x => x.1) es (fun p => osKeys p.1 p.2)
        hwf.1 (fun p hp => osKeys_nodup (hwf.2 p hp)) (fun p _ => osKeys_tag)

/-! Lemmas locating one metric series through average_metrics: each loop
level rewrites values in place, so the aggregated mean sits at the same key
path the series occupied. -/

theorem lookupPath_cons_inv {v x : PyVal} {k : String} {ks : List String}
    (h : lookupPath v (k :: ks) = some x) :
    ∃ es w, v = .dict es ∧ lookupKey es k = some w ∧ lookupPath w ks = some x := by
  cases v with
  | str s => simp [lookupPath] at h
  | num q => simp [lookupPath] at h
  | dict es =>
      cases hl : lookupKey es k with
      | none => rw [lookupPath, hl] at h; cases h
      | some w =>
          rw [lookupPath, hl] at h
          exact ⟨es, w, rfl, hl, h⟩

theorem average_metrics_inv {es : List (String × PyVal)} {r : PyVal}
    (h : average_metrics (.dict es) = .ok r) :
    ∃ es2, mapVals avgOsVal es = .ok es2 ∧ r = .dict es2 := by
  rw [average_metrics] at h
  rw [ebind_ok] at h
  obtain ⟨es2, hm, h⟩ := h
  rw [epure_ok] at h
  exact ⟨es2, hm, h.symm⟩

theorem avgOsVal_inv {oes bes : List (String × PyVal)} {ov2 : PyVal}
    (hl : lookupKey oes "browsers" = some (.dict bes))
    (h : avgOsVal (.dict oes) = .ok ov2) :
    ∃ bes2, mapVals avgBrowserVal bes = .ok bes2 ∧
      ov2 = .dict (setOrAppend oes "browsers" (.dict bes2)) := by
  simp only [avgOsVal, getVivify, hl] at h
  rw [ebind_ok] at h
  obtain ⟨bes2, hm, h⟩ := h
  rw [epure_ok] at h
  exact ⟨bes2, hm, h.symm⟩

theorem avgBrowserVal_inv {ves ces : List (String × PyVal)} {bv2 : PyVal}
    (hl : lookupKey ves "clients" = some (.dict ces))
    (h : avgBrowserVal (.dict ves) = .ok bv2) :
    ∃ ces2, mapVals avgClientVal ces = .ok ces2 ∧
      bv2 = .dict (setOrAppend ves "clients" (.dict ces2)) := by
  simp only [avgBrowserVal, getVivify, hl] at h
  rw [ebind_ok] at h
  obtain ⟨ces2, hm, h⟩ := h
  rw [epure_ok] at h
  exact ⟨ces2, hm, h.symm⟩

theorem avgClientVal_inv {ms : List (String × PyVal)} {cv2 : PyVal}
    (h : avgClientVal (.dict ms) = .ok cv2) :
    ∃ ms2, mapVals (fun sv => do pure (.num (← avgSeries sv))) ms = .ok ms2 ∧
      cv2 = .dict ms2 := by
  rw [avgClientVal] at h
  rw [ebind_ok] at h
  obtain ⟨ms2, hm, h⟩ := h
  rw [epure_ok] at h
  exact ⟨ms2, hm, h.symm⟩

theorem avg_leaf {v r : PyVal} {o b c f : String} {leaf : PyVal}
    (havg : average_metrics v = .ok r)
    (hpath : lookupPath v [o, "browsers", b, "clients", c, f] = some leaf) :
    ∃ q, avgSeries leaf = .ok q ∧
      lookupPath r [o, "browsers", b, "clients", c, f] = some (.num q) := by
  obtain ⟨es, ov, hv, hlo, hpath⟩ := lookupPath_cons_inv hpath
  obtain ⟨oes, bw, hov, hlb, hpath⟩ := lookupPath_cons_inv hpath
  obtain ⟨bes, bv, hbw, hlbv, hpath⟩ := lookupPath_cons_inv hpath
  obtain ⟨ves, cw, hbv, hlc, hpath⟩ := lookupPath_cons_inv hpath
  obtain ⟨ces, cv, hcw, hlcv, hpath⟩ := lookupPath_cons_inv hpath
  obtain ⟨ms, lf, hcv, hlf, hpath⟩ := lookupPath_cons_inv hpath
  have hleaf : lf = leaf := by simpa [lookupPath] using hpath
  subst hleaf
  subst hv
  obtain ⟨es2, hmes, hr⟩ := average_metrics_inv havg
  obtain ⟨ov2, hova, hlo2⟩ := mapVals_lookup hmes hlo
  subst hov
  subst hbw
  obtain ⟨bes2, hmbes, hov2⟩ := avgOsVal_inv hlb hova
  obtain ⟨bv2, hbva, hlb2⟩ := mapVals_lookup hmbes hlbv
  subst hbv
  subst hcw
  obtain ⟨ces2, hmces, hbv2⟩ := avgBrowserVal_inv hlc hbva
  obtain ⟨cv2, hcva, hlc2⟩ := mapVals_lookup hmces hlcv
  subst hcv
  obtain ⟨ms2, hmms, hcv2⟩ := avgClientVal_inv hcva
  obtain ⟨w2, hw2, hlf2⟩ := mapVals_lookup hmms hlf
  rw [ebind_ok] at hw2
  obtain ⟨q, hq, hw2⟩ := hw2
  rw [epure_ok] at hw2
  refine ⟨q, hq, ?_⟩
  subst hr
  subst hov2
  subst hbv2
  subst hcv2
  subst hw2
  simp only [lookupPath, hlo2, lookupKey_setOrAppend_self, hlb2, hlc2, hlf2]

theorem sumSamples_valid {ses : List (String × PyVal)}
    (hvals : ∀ p ∈ ses, ∃ s, p.2 = .str s ∧ (s = "" ∨ ∃ q, pyFloat? s = some q)) :
    sumSamples ses = .ok (validSum ses) := by
  induction ses with
  | nil => rfl
  | cons p t ih =>
      obtain ⟨s, hs, hval⟩ := hvals p (List.mem_cons_self _ _)
      have iht := ih (fun q hq => hvals q (List.mem_cons_of_mem _ hq))
      obtain ⟨ts, d⟩ := p
      simp only at hs
      subst hs
      by_cases hempty : s = ""
      · subst hempty
        have hie : ("" : String).isEmpty = true := String.isEmpty_iff "" |>.mpr rfl
        rw [sumSamples]
        rw [if_neg (by simp [pyTruthy, hie])]
        rw [iht]
        simp [validSum]
      · have hq : ∃ q, pyFloat? s = some q := by
          rcases hval with h1 | h2
          · exact absurd h1 hempty
          · exact h2
        obtain ⟨q, hq⟩ := hq
        have hie : s.isEmpty = false := by
          cases hie2 : s.isEmpty
          · rfl
          · exact absurd (String.isEmpty_iff s |>.mp hie2) hempty
        rw [sumSamples]
        rw [if_pos (by simp [pyTruthy, hie])]
        simp only [hq]
        rw [ebind_ok]
        refine ⟨validSum t, iht, ?_⟩
        rw [epure_ok]
        simp only [validSum, List.filterMap_cons, if_neg hempty, hq, List.sum_cons]

theorem avgSeries_valid {ses : List (String × PyVal)} (hne : ses ≠ [])
    (hvals : ∀ p ∈ ses, ∃ s, p.2 = .str s ∧ (s = "" ∨ ∃ q, pyFloat? s = some q)) :
    avgSeries (.dict ses) = .ok (round2 (validSum ses / (ses.length : Rat))) := by
  rw [avgSeries]
  rw [ebind_ok]
  refine ⟨validSum ses, sumSamples_valid hvals, ?_⟩
  rw [if_neg (by simpa using List.length_pos.mpr hne |>.ne')]
  rfl

theorem validSum_all_empty {ses : List (String × PyVal)}
    (h : ∀ p ∈ ses, p.2 = .str "") : validSum ses = 0 := by
  induction ses with
  | nil => rfl
  | cons p t ih =>
      have hp : p.2 = .str "" := h p (List.mem_cons_self _ _)
      rw [validSum, List.filterMap_cons, hp]
      simp only [if_pos rfl]
      exact ih (fun q hq => h q (List.mem_cons_of_mem _ hq))

theorem round2_zero : round2 0 = 0 := by norm_num [round2]

/-! The ten claims. -/

/-- C1: every comparison row a successful compare_metrics run emits carries
percent change round((new_avg - old_avg) / new_avg, 2) * 100 when its new
average is a nonzero number and its old average is a nonzero number, and
carries the sentinel error exactly in the remaining cases: new average
zero, old average zero, or old average the sentinel none. -/
theorem claim1_percent_change_formula (old new : PyVal) (rows : List Row)
    (oldOut newOut : PyVal)
    (h : compare_metrics old new = .ok (rows, oldOut, newOut)) :
    ∀ r ∈ rows, RowDelta r :=
  fun r hr => ((compare_metrics_spec h).2.2 r hr).2

/-- C1 witness: the formula contract evaluated on a concrete comparison in
which the pair is missing from the old aggregate. -/
theorem claim1_witness : RowDelta c7row :=
  claim1_percent_change_formula c7old c7new [c7row] c7oldViv c7new rfl c7row
    (List.mem_singleton_self c7row)

/-- C2 counterexample: on a series with one valid sample (value 2) and one
empty sample, average_metrics stores mean 1.0 (sum 2 divided by the total
sample count 2), while the claim's formula (sum 2 divided by the 1 valid
sample, rounded) predicts 2.0. -/
theorem claim2_counterexample :
    average_metrics c2ex = .ok c2exOut ∧
    lookupPath c2exOut ["u", "browsers", "ch", "clients", "cl", "td"] =
      some (.num 1) ∧
    round2 (validSum c2series / 1) = 2 ∧ (1 : Rat) ≠ 2 := by
  refine ⟨?_, rfl, ?_, by norm_num⟩
  · simp +decide [average_metrics, mapVals, avgOsVal, avgBrowserVal, avgClientVal,
      avgSeries, sumSamples, pyTruthy, pyFloat?, digitsVal, getVivify, lookupKey,
      setOrAppend, setKey, c2ex, c2exOut, pure, Except.pure, Bind.bind, Except.bind]
    norm_num [round2]
  · simp +decide [validSum, c2series, pyFloat?, digitsVal]
    norm_num [round2]

/-- C2 amended: the aggregated value for a metric is the sum of the
non-empty samples converted to floating point, divided by the TOTAL number
of samples (empty-string samples are excluded from the sum but still count
in the divisor), rounded to 2 decimal places. -/
theorem claim2_average_divides_by_total (v r : PyVal) (o b c f : String)
    (ses : List (String × PyVal))
    (havg : average_metrics v = .ok r)
    (hpath : lookupPath v [o, "browsers", b, "clients", c, f] = some (.dict ses))
    (hne : ses ≠ [])
    (hvals : ∀ p ∈ ses, ∃ s, p.2 = .str s ∧ (s = "" ∨ ∃ q, pyFloat? s = some q)) :
    lookupPath r [o, "browsers", b, "clients", c, f] =
      some (.num (round2 (validSum ses / (ses.length : Rat)))) := by
  obtain ⟨q, hq, hl⟩ := avg_leaf havg hpath
  rw [avgSeries_valid hne hvals] at hq
  injection hq with hq
  rw [hq]
  exact hl

/-- C2 witness: the amended mean evaluated on the two-sample series. -/
theorem claim2_witness :
    lookupPath c2exOut ["u", "browsers", "ch", "clients", "cl", "td"] =
      some (.num (round2 (validSum c2series / (c2series.length : Rat)))) :=
  claim2_average_divides_by_total c2ex c2exOut "u" "ch" "cl" "td" c2series
    (by
      simp +decide [average_metrics, mapVals, avgOsVal, avgBrowserVal,
        avgClientVal, avgSeries, sumSamples, pyTruthy, pyFloat?, digitsVal,
        getVivify, lookupKey, setOrAppend, setKey, c2ex, c2exOut, pure,
        Except.pure, Bind.bind, Except.bind]
      norm_num [round2])
    rfl (by simp [c2series])
    (by
      intro p hp
      rw [c2series] at hp
      rcases List.mem_cons.mp hp with hp1 | hp2
      · subst hp1
        exact ⟨"2", rfl, Or.inr ⟨2, by simp +decide [pyFloat?, digitsVal]⟩⟩
      · rcases List.mem_cons.mp hp2 with hp1 | hp3
        · subst hp1
          exact ⟨"", rfl, Or.inl rfl⟩
        · exact absurd hp3 (List.not_mem_nil p))

/-- C3 counterexample: a filename with the wrong segment count makes
parse_filename terminate the process (sys.exit(1)), not return a structured
error value, and a browser segment that fails the pattern produces no
failure at all: parsing returns normally without browser fields. -/
theorem claim3_counterexample :
    parse_filename "abc" = .exit 1 ∧
    parse_filename "a1-b-c-d-e-f-g" =
      .ok ⟨"a", "1", none, none, "c", "d-e-f"⟩ :=
  ⟨rfl, rfl⟩

/-- C3 amended: a filename whose dash-split segment count is not 7, or a
7-segment filename whose OS segment fails the name/version pattern, makes
parse_filename abort the process with exit status 1 (after logging), while
a 7-segment filename whose browser segment alone fails the pattern is only
logged: parsing returns normally, without browser fields. -/
theorem claim3_exit_on_malformed (f : String) :
    (¬(splitDash f).length = 7 → parse_filename f = .exit 1) ∧
    (∀ p0 rest, splitDash f = p0 :: rest → (splitDash f).length = 7 →
        regexNameVersion p0 = none → parse_filename f = .exit 1) ∧
    (∀ p0 p1 p2 p3 p4 p5 p6 osm, splitDash f = [p0, p1, p2, p3, p4, p5, p6] →
        regexNameVersion p0 = some osm → regexNameVersion p1 = none →
        parse_filename f =
          .ok ⟨osm.name, osm.version, none, none, p2,
            p3 ++ "-" ++ p4 ++ "-" ++ p5⟩) := by
  refine ⟨fun h => by simp [parse_filename, h], ?_, ?_⟩
  · intro p0 rest hsplit h7 ho
    simp [parse_filename, hsplit, ho]
  · intro p0 p1 p2 p3 p4 p5 p6 osm hsplit ho hb
    simp [parse_filename, hsplit, ho, hb, joinDash, String.append_assoc]

/-- C3 witness: the exit behavior evaluated on the one-segment filename. -/
theorem claim3_witness : parse_filename "abc" = .exit 1 :=
  (claim3_exit_on_malformed "abc").1 (by decide)

/-- C4: a successful compare_metrics run emits rows whose (os, browser,
client, metric) keys are, in order, exactly the pairs present in the new
aggregate (so exactly one row per pair when the new aggregate is
well-formed, its key list then having no duplicates), and every row whose
key path is absent from the old aggregate reports the sentinel none as its
old average and the sentinel error as its percent change. -/
theorem claim4_rows_match_new_pairs (old new : PyVal) (rows : List Row)
    (oldOut newOut : PyVal)
    (h : compare_metrics old new = .ok (rows, oldOut, newOut)) :
    rows.map keyOf = aggKeys new ∧
    (wfAgg new = true → (aggKeys new).Nodup) ∧
    (∀ r ∈ rows, hasPath old (pathOf r) = false →
        r.old_avg = .str "none" ∧ r.change = .str "error") := by
  obtain ⟨hk, hpres, hrows⟩ := compare_metrics_spec h
  refine ⟨hk, fun hwf => aggKeys_nodup hwf, fun r hr habs => ?_⟩
  obtain ⟨ha, hd⟩ := hrows r hr
  have hlp : lookupPath old (pathOf r) = none := by
    cases hlp2 : lookupPath old (pathOf r) with
    | none => rfl
    | some w => rw [hasPath, hlp2] at habs; simp at habs
  have hnone : r.old_avg = .str "none" := oldAvgOf_absent (pathOf r) ha hlp
  refine ⟨hnone, ?_⟩
  rcases hd with ⟨n, o2, _, hoa, _⟩ | ⟨herr, _⟩
  · rw [hnone] at hoa
    cases hoa
  · exact herr

/-- C4 witness: the row contract evaluated on a concrete comparison whose
only pair is absent from the old aggregate. -/
theorem claim4_witness :
    [c7row].map keyOf = aggKeys c7new ∧
    (wfAgg c7new = true → (aggKeys c7new).Nodup) ∧
    (∀ r ∈ [c7row], hasPath c7old (pathOf r) = false →
        r.old_avg = .str "none" ∧ r.change = .str "error") :=
  claim4_rows_match_new_pairs c7old c7new [c7row] c7oldViv c7new rfl

/-- C5: a filename splitting into 7 dash segments whose OS and browser
segments both match the name/version pattern parses into the two OS capture
groups, the two browser capture groups, the verbatim client segment, and a
timestamp that rejoins segments 3 to 5 with dashes; segment 6 never
influences the result. -/
theorem claim5_valid_filename_parse (f p0 p1 p2 p3 p4 p5 p6 : String)
    (hsplit : splitDash f = [p0, p1, p2, p3, p4, p5, p6])
    (osm bm : NameVersion)
    (ho : regexNameVersion p0 = some osm)
    (hb : regexNameVersion p1 = some bm) :
    parse_filename f = .ok ⟨osm.name, osm.version, some bm.name,
      some bm.version, p2, p3 ++ "-" ++ p4 ++ "-" ++ p5⟩ ∧
    (∀ g q6, splitDash g = [p0, p1, p2, p3, p4, p5, q6] →
        parse_filename g = parse_filename f) := by
  have main : ∀ (g2 q6 : String), splitDash g2 = [p0, p1, p2, p3, p4, p5, q6] →
      parse_filename g2 = .ok ⟨osm.name, osm.version, some bm.name,
        some bm.version, p2, p3 ++ "-" ++ p4 ++ "-" ++ p5⟩ := by
    intro g2 q6 hs
    simp [parse_filename, hs, ho, hb, joinDash, String.append_assoc]
  exact ⟨main f p6 hsplit,
    fun g q6 hg => (main g q6 hg).trans (main f p6 hsplit).symm⟩

/-- C5 witness: the documented example filename parses to its documented
metadata. -/
theorem claim5_witness :
    parse_filename "osx10.12-chrome57-ndt_js-2017-04-06T215733Z-results.json" =
      .ok ⟨"osx", "10.12", some "chrome", some "57", "ndt_js",
        "2017" ++ "-" ++ "04" ++ "-" ++ "06T215733Z"⟩ :=
  (claim5_valid_filename_parse
    "osx10.12-chrome57-ndt_js-2017-04-06T215733Z-results.json"
    "osx10.12" "chrome57" "ndt_js" "2017" "04" "06T215733Z" "results.json"
    rfl ⟨"osx", "10.12"⟩ ⟨"chrome", "57"⟩ rfl rfl).1

/-- C6 counterexample: a series whose single sample is the empty string
does NOT make average_metrics divide by zero: the divisor is the total
sample count 1, the sum of valid samples is 0, and the run returns
normally with mean 0.0. -/
theorem claim6_counterexample :
    average_metrics c6ex = .ok c6exOut ∧
    average_metrics c6ex ≠ .error PyExc.zeroDivision ∧
    lookupPath c6exOut ["w", "browsers", "ff", "clients", "cl", "lat"] =
      some (.num 0) := by
  have h : average_metrics c6ex = .ok c6exOut := by
    simp +decide [average_metrics, mapVals, avgOsVal, avgBrowserVal, avgClientVal,
      avgSeries, sumSamples, pyTruthy, pyFloat?, digitsVal, getVivify, lookupKey,
      setOrAppend, setKey, c6ex, c6exOut, pure, Except.pure, Bind.bind, Except.bind]
    norm_num [round2]
  exact ⟨h, by rw [h]; simp, rfl⟩

/-- C6 amended: a metric series with at least one sample, all of whose
samples are empty strings, aggregates without any division by zero to the
mean 0.0, because the divisor is the total sample count; only a series with
no samples at all would divide by zero. -/
theorem claim6_all_empty_mean_zero (v r : PyVal) (o b c f : String)
    (ses : List (String × PyVal))
    (havg : average_metrics v = .ok r)
    (hpath : lookupPath v [o, "browsers", b, "clients", c, f] = some (.dict ses))
    (hne : ses ≠ [])
    (hvals : ∀ p ∈ ses, p.2 = .str "") :
    lookupPath r [o, "browsers", b, "clients", c, f] = some (.num 0) := by
  obtain ⟨q, hq, hl⟩ := avg_leaf havg hpath
  have hvals2 : ∀ p ∈ ses, ∃ s, p.2 = PyVal.str s ∧
      (s = "" ∨ ∃ q2, pyFloat? s = some q2) :=
    fun p hp => ⟨"", hvals p hp, Or.inl rfl⟩
  rw [avgSeries_valid hne hvals2, validSum_all_empty hvals] at hq
  injection hq with hq
  rw [zero_div, round2_zero] at hq
  rw [← hq] at hl
  exact hl

/-- C6 witness: the zero mean evaluated on the single-empty-sample
series. -/
theorem claim6_witness :
    lookupPath c6exOut ["w", "browsers", "ff", "clients", "cl", "lat"] =
      some (.num 0) :=
  claim6_all_empty_mean_zero c6ex c6exOut "w" "ff" "cl" "lat"
    [("t1", .str "")]
    (by
      simp +decide [average_metrics, mapVals, avgOsVal, avgBrowserVal,
        avgClientVal, avgSeries, sumSamples, pyTruthy, pyFloat?, digitsVal,
        getVivify, lookupKey, setOrAppend, setKey, c6ex, c6exOut, pure,
        Except.pure, Bind.bind, Except.bind]
      norm_num [round2])
    rfl (by simp)
    (by
      intro p hp
      rcases List.mem_cons.mp hp with hp1 | hp2
      · subst hp1; rfl
      · exact absurd hp2 (List.not_mem_nil p))

/-- C7 counterexample: comparing an empty old aggregate against a new
aggregate with one pair mutates the old aggregate: the missing key path is
auto-vivified into a chain of empty dicts, so the old structure after the
call differs from the old structure before it. -/
theorem claim7_counterexample :
    compare_metrics c7old c7new = .ok ([c7row], c7oldViv, c7new) ∧
    c7oldViv ≠ c7old :=
  ⟨rfl, by simp [c7oldViv, c7old]⟩

/-- C7 amended: compare_metrics leaves a well-formed new aggregate
unchanged and never changes what any lookup chain on the old aggregate
yields (existing entries keep their values), but it is not pure: looking up
pairs absent from the old aggregate inserts auto-vivified empty dicts into
it, as the counterexample exhibits. -/
theorem claim7_mutation_bounds (old new : PyVal) (rows : List Row)
    (oldOut newOut : PyVal) (hwf : wfAgg new = true)
    (h : compare_metrics old new = .ok (rows, oldOut, newOut)) :
    newOut = new ∧ (∀ q, oldAvgOf oldOut q = oldAvgOf old q) :=
  ⟨compare_metrics_new hwf h, (compare_metrics_spec h).2.1⟩

/-- C7 witness: the mutation bounds evaluated on the concrete vivifying
comparison. -/
theorem claim7_witness :
    c7new = c7new ∧ (∀ q, oldAvgOf c7oldViv q = oldAvgOf c7old q) :=
  claim7_mutation_bounds c7old c7new [c7row] c7oldViv c7new rfl rfl

/-- C8 counterexample: average_metrics mutates the caller's structure in
place (the source aliases avgs = results and assigns into it), so the
structure after the call, which is what the function returns, no longer
contains the caller's series: the series dict has been replaced by the
number 5.0, and the post-call structure differs from the input. -/
theorem claim8_counterexample :
    average_metrics c8ex = .ok c8exOut ∧
    lookupPath c8ex ["o", "browsers", "br", "clients", "cl", "met"] =
      some (.dict [("t1", .str "5")]) ∧
    lookupPath c8exOut ["o", "browsers", "br", "clients", "cl", "met"] =
      some (.num 5) ∧
    c8exOut ≠ c8ex := by
  refine ⟨?_, rfl, rfl, by simp [c8ex, c8exOut]⟩
  simp +decide [average_metrics, mapVals, avgOsVal, avgBrowserVal, avgClientVal,
    avgSeries, sumSamples, pyTruthy, pyFloat?, digitsVal, getVivify, lookupKey,
    setOrAppend, setKey, c8ex, c8exOut, pure, Except.pure, Bind.bind, Except.bind]
  norm_num [round2]

/-- C8 amended: average_metrics replaces every metric series in place with
a number, so after the call the structure (returned, and aliasing the
caller's argument) holds a numeric mean where the caller's series dict
stood: the value at the series path has changed. -/
theorem claim8_series_replaced_in_place (v r : PyVal) (o b c f : String)
    (ses : List (String × PyVal))
    (havg : average_metrics v = .ok r)
    (hpath : lookupPath v [o, "browsers", b, "clients", c, f] = some (.dict ses)) :
    ∃ q, lookupPath r [o, "browsers", b, "clients", c, f] = some (.num q) ∧
      lookupPath r [o, "browsers", b, "clients", c, f] ≠
        lookupPath v [o, "browsers", b, "clients", c, f] := by
  obtain ⟨q, _, hl⟩ := avg_leaf havg hpath
  exact ⟨q, hl, by rw [hl, hpath]; simp⟩

/-- C8 witness: the in-place replacement evaluated on the one-sample
series. -/
theorem claim8_witness :
    ∃ q, lookupPath c8exOut ["o", "browsers", "br", "clients", "cl", "met"] =
        some (.num q) ∧
      lookupPath c8exOut ["o", "browsers", "br", "clients", "cl", "met"] ≠
        lookupPath c8ex ["o", "browsers", "br", "clients", "cl", "met"] :=
  claim8_series_replaced_in_place c8ex c8exOut "o" "br" "cl" "met"
    [("t1", .str "5")]
    (by
      simp +decide [average_metrics, mapVals, avgOsVal, avgBrowserVal,
        avgClientVal, avgSeries, sumSamples, pyTruthy, pyFloat?, digitsVal,
        getVivify, lookupKey, setOrAppend, setKey, c8ex, c8exOut, pure,
        Except.pure, Bind.bind, Except.bind]
      norm_num [round2])
    rfl

/-- C9: a 7-segment filename whose OS segment matches the name/version
pattern but whose browser segment does not parses successfully: the result
carries the OS groups, the client and the timestamp, has no browser fields
(the Python dict lacks the keys, modelled as none), and the run neither
raises nor exits. -/
theorem claim9_browser_mismatch_still_parses (f p0 p1 p2 p3 p4 p5 p6 : String)
    (hsplit : splitDash f = [p0, p1, p2, p3, p4, p5, p6])
    (osm : NameVersion)
    (ho : regexNameVersion p0 = some osm)
    (hb : regexNameVersion p1 = none) :
    parse_filename f = .ok ⟨osm.name, osm.version, none, none, p2,
      p3 ++ "-" ++ p4 ++ "-" ++ p5⟩ := by
  simp [parse_filename, hsplit, ho, hb, joinDash, String.append_assoc]

/-- C9 witness: a filename with an unversioned browser segment parses
without browser fields. -/
theorem claim9_witness :
    parse_filename "win10-safari-banjo-2016-11-29T130814Z-results.json" =
      .ok ⟨"win", "10", none, none, "banjo",
        "2016" ++ "-" ++ "11" ++ "-" ++ "29T130814Z"⟩ :=
  claim9_browser_mismatch_still_parses
    "win10-safari-banjo-2016-11-29T130814Z-results.json"
    "win10" "safari" "banjo" "2016" "11" "29T130814Z" "results.json"
    rfl ⟨"win", "10"⟩ rfl rfl

/-- C10: parse_csv skips a row exactly when its first field is the literal
string Filename; any other row is data: its first field goes to
parse_filename, whose exit aborts the whole run, and a parsed row is
ingested before the remaining rows are processed. -/
theorem claim10_header_skip_exact (r : CsvRow) (rs : List CsvRow) :
    (r.filename = "Filename" → parse_csv (r :: rs) = parse_csv rs) ∧
    (∀ c2, r.filename ≠ "Filename" → parse_filename r.filename = .exit c2 →
        parse_csv (r :: rs) = .exit c2) ∧
    (∀ m a2, r.filename ≠ "Filename" → parse_filename r.filename = .ok m →
        ingest_row (.dict []) m r = .ok a2 →
        parse_csv (r :: rs) = parse_csv_from a2 rs) := by
  refine ⟨fun hskip => ?_, fun c2 hno hexit => ?_, fun m a2 hno hok hing => ?_⟩
  · rw [parse_csv, parse_csv_from, if_pos hskip]
    rfl
  · rw [parse_csv, parse_csv_from, if_neg hno, hexit]
  · rw [parse_csv, parse_csv_from, if_neg hno, hok]
    simp only [hing]

/-- C10 witness: the exact header row is skipped (an empty file's result),
while a lowercase filename header is treated as data and aborts the run. -/
theorem claim10_witness :
    parse_csv [headerRow] = .ok (.dict []) ∧ parse_csv [lowerRow] = .exit 1 :=
  ⟨by rw [(claim10_header_skip_exact headerRow []).1 rfl]; rfl,
   (claim10_header_skip_exact lowerRow []).2.1 1 (by decide) rfl⟩

end Testmaster
